import Mathlib

/-!
Verification of the `AnalyticsService` event-log subsystem
(src/services/analytics.service.ts of the sisu-slack-bot repository).

Modelling conventions (shallow embedding):

* Timestamps.  The source stores `timestamp` as an ISO-8601 UTC string with
  millisecond precision.  Such strings are order-isomorphic to their epoch
  millisecond value, so we represent a timestamp as a `Nat` (milliseconds
  since the epoch).  `localeCompare` ordering on the strings coincides with
  `≤` on these numbers, the date key `timestamp.split('T')[0]` corresponds
  to `t / 86400000` (the UTC day index), and `getUTCHours()` corresponds to
  `t % 86400000 / 3600000`.

* JavaScript `Map`s (`writeQueue`, `writeTimeout`) are association lists in
  insertion order: `Map.set` updates an existing key in place and appends a
  new key at the end, `Map.delete` removes the key, exactly as below.
  `writeTimeout` only ever matters through `has`/`delete` on its keys, so it
  is modelled as the list of keys holding a pending timer.

* The partition store (one file per UTC day under `logs/analytics/`) is an
  association list from day index to file content.  A file is a list of
  lines; a line is `some e` when it is the JSON serialization of the record
  `e` and `none` when it is present but fails to `JSON.parse` (the only way
  the source distinguishes lines: serialization of a record always parses
  back).  An absent key models ENOENT.  `appendFile` failures (disk,
  permission) are modelled by the `failDays` component: appends to those
  partitions reject, all others succeed.

* `JavaScript` numbers (`responseTime`, token counts) are represented as
  `Rat` so that the divisions performed by the aggregation code are exact.

* Exceptions: each operation returns `Except Unit _ × State`, the `Except`
  being the fulfilled/rejected status of the returned promise and the state
  being the heap after the call.
-/

namespace SlackAnalytics

/-- Equality of promise outcomes is decidable (used by concrete witnesses). -/
instance {ε α : Type} [DecidableEq ε] [DecidableEq α] : DecidableEq (Except ε α) := by
  intro a b
  cases a <;> cases b
  case ok.ok x y =>
    exact decidable_of_iff (x = y) (by simp)
  case error.error x y =>
    exact decidable_of_iff (x = y) (by simp)
  all_goals exact isFalse (by simp)

/-- Association-list lookup, modelling `Map.get` / object indexing. -/
def lookupA {κ α : Type} [DecidableEq κ] : List (κ × α) → κ → Option α
  | [], _ => none
  | (k, v) :: rest, key => if k = key then some v else lookupA rest key

/-- Association-list update, modelling `Map.set` / object assignment:
an existing key is updated in place, a new key is appended at the end. -/
def setA {κ α : Type} [DecidableEq κ] : List (κ × α) → κ → α → List (κ × α)
  | [], key, v => [(key, v)]
  | (k, w) :: rest, key, v =>
    if k = key then (k, v) :: rest else (k, w) :: setA rest key v

/-- Association-list removal, modelling `Map.delete` (keys are unique in
every reachable map, so removing all occurrences is the same). -/
def eraseA {κ α : Type} [DecidableEq κ] (m : List (κ × α)) (key : κ) : List (κ × α) :=
  m.filter (fun p => p.1 ≠ key)

/-- `tokensUsed?: { input, output, total }` of `AnalyticsEvent`. -/
structure TokensUsed where
  input : Rat
  output : Rat
  total : Rat
deriving DecidableEq

/-- `errorStatus?: { hasError, errorType?, errorMessage? }`. -/
structure ErrorStatus where
  hasError : Bool
  errorType : Option String
  errorMessage : Option String
deriving DecidableEq

/-- The caller-supplied part of an event: every `AnalyticsEvent` field
except `timestamp` and `eventId`, which `logEvent` assigns itself. -/
structure AnalyticsEventData where
  user : String
  channel : String
  channelType : Option String
  command : Option String
  query : Option String
  responseTime : Rat
  tokensUsed : Option TokensUsed
  errorStatus : Option ErrorStatus
  threadTs : Option String
  isInThread : Bool
  botMentioned : Bool
deriving DecidableEq

/-- The persisted record (`interface AnalyticsEvent` of types/analytics.ts). -/
structure AnalyticsEvent where
  timestamp : Nat
  eventId : String
  user : String
  channel : String
  channelType : Option String
  command : Option String
  query : Option String
  responseTime : Rat
  tokensUsed : Option TokensUsed
  errorStatus : Option ErrorStatus
  threadTs : Option String
  isInThread : Bool
  botMentioned : Bool
deriving DecidableEq

/-- `logEvent`'s construction `{ ...eventData, eventId, timestamp }`. -/
def mkAnalyticsEvent (now : Nat) (eid : String) (d : AnalyticsEventData) : AnalyticsEvent :=
  { timestamp := now, eventId := eid, user := d.user, channel := d.channel
    channelType := d.channelType, command := d.command, query := d.query
    responseTime := d.responseTime, tokensUsed := d.tokensUsed
    errorStatus := d.errorStatus, threadTs := d.threadTs
    isInThread := d.isInThread, botMentioned := d.botMentioned }

/-- Milliseconds in a UTC day. -/
def msPerDay : Nat := 86400000

/-- Milliseconds in an hour. -/
def msPerHour : Nat := 3600000

/-- `timestamp.split('T')[0]`: the UTC day index of a millisecond instant. -/
def dayOf (t : Nat) : Nat := t / msPerDay

/-- `new Date(t).getUTCHours()`. -/
def hourOf (t : Nat) : Nat := t % msPerDay / msPerHour

/-- `private readonly batchSize = 10`. -/
def batchSize : Nat := 10

/-- `private readonly flushInterval = 5000`. -/
def flushInterval : Nat := 5000

/-- One line of a partition file: `some e` parses as the record `e`,
`none` is a non-empty line that fails `JSON.parse`. -/
abbrev FileLine : Type := Option AnalyticsEvent

/-- The mutable state of an `AnalyticsService` instance together with the
log directory it owns.  `failDays` is the set of partitions whose
`fs.appendFile` currently rejects (I/O fault model). -/
structure AnalyticsState where
  writeQueue : List (Nat × List AnalyticsEvent)
  writeTimeout : List Nat
  fs : List (Nat × List FileLine)
  failDays : List Nat
deriving DecidableEq

/-- `lines.map(line => JSON.parse(line))`: parses each line in order,
throwing (returning `none`) at the first line that fails to parse. -/
def parseLines : List FileLine → Option (List AnalyticsEvent)
  | [] => some []
  | none :: _ => none
  | some e :: rest => (parseLines rest).map (e :: ·)

/-- `loadEventsFromFile`: ENOENT yields `[]`; otherwise every non-empty
line is `JSON.parse`d and the first parse failure rejects. -/
def loadEventsFromFile (fs : List (Nat × List FileLine)) (d : Nat) :
    Except Unit (List AnalyticsEvent) :=
  match lookupA fs d with
  | none => .ok []
  | some lines =>
    match parseLines lines with
    | some events => .ok events
    | none => .error ()

/-- `appendEventsToFile`: serializes each record to one line and performs a
single append, creating the file if absent; rejects on an I/O fault. -/
def appendEventsToFile (d : Nat) (events : List AnalyticsEvent)
    (s : AnalyticsState) : Except Unit AnalyticsState :=
  if d ∈ s.failDays then .error ()
  else .ok { s with
    fs := setA s.fs d (((lookupA s.fs d).getD []) ++ events.map some) }

/-- `flushEvents(dateKey)`: a missing or empty queue is a no-op; otherwise
the queued batch is appended, then the queue entry is deleted and the
timer, if armed, is cleared and deleted.  On append failure the rejection
propagates and the queue and timer are left untouched. -/
def flushEvents (d : Nat) (s : AnalyticsState) : Except Unit Unit × AnalyticsState :=
  match lookupA s.writeQueue d with
  | none => (.ok (), s)
  | some events =>
    if events.length = 0 then (.ok (), s)
    else
      match appendEventsToFile d events s with
      | .error e => (.error e, s)
      | .ok s₁ =>
        (.ok (), { s₁ with
          writeQueue := eraseA s₁.writeQueue d,
          writeTimeout := s₁.writeTimeout.filter (fun k => k ≠ d) })

/-- `logEvent(eventData)`: builds the record (assigning `timestamp := now`
and `eventId := eid`), pushes it onto its date's queue, then either flushes
immediately when the queue reaches `batchSize` (awaited, so a flush
rejection rejects `logEvent` itself) or arms the flush timer if absent. -/
def logEvent (now : Nat) (eid : String) (data : AnalyticsEventData)
    (s : AnalyticsState) : Except Unit Unit × AnalyticsState :=
  let event := mkAnalyticsEvent now eid data
  let dateKey := dayOf event.timestamp
  let queued := ((lookupA s.writeQueue dateKey).getD []) ++ [event]
  let s₁ := { s with writeQueue := setA s.writeQueue dateKey queued }
  if batchSize ≤ queued.length then
    flushEvents dateKey s₁
  else
    if dateKey ∈ s₁.writeTimeout then (.ok (), s₁)
    else (.ok (), { s₁ with writeTimeout := s₁.writeTimeout ++ [dateKey] })

/-- Sequential composition of `logEvent` calls, rejecting at the first
rejected call. -/
def logEvents : List (Nat × String × AnalyticsEventData) → AnalyticsState →
    Except Unit Unit × AnalyticsState
  | [], s => (.ok (), s)
  | (now, eid, data) :: rest, s =>
    match logEvent now eid data s with
    | (.error e, s₁) => (.error e, s₁)
    | (.ok _, s₁) => logEvents rest s₁

/-- `for (const [dateKey] of map) await this.flushEvents(dateKey)`:
flushes the listed keys in order, rejecting at the first failure. -/
def flushAllKeys : List Nat → AnalyticsState → Except Unit Unit × AnalyticsState
  | [], s => (.ok (), s)
  | d :: rest, s =>
    match flushEvents d s with
    | (.error e, s₁) => (.error e, s₁)
    | (.ok _, s₁) => flushAllKeys rest s₁

/-- `cleanup()`: clears every pending timer, then flushes every queued
date-key. -/
def cleanup (s : AnalyticsState) : Except Unit Unit × AnalyticsState :=
  let s₁ := { s with writeTimeout := [] }
  flushAllKeys (s₁.writeQueue.map Prod.fst) s₁

/-- `AnalyticsQuery`: date strings are represented by their parsed
millisecond value. -/
structure AnalyticsQuery where
  startDate : Option Nat
  endDate : Option Nat
  channel : Option String
  user : Option String
  command : Option String
  hasError : Option Bool
deriving DecidableEq

/-- The query with every field absent (`{}` / omitted argument). -/
def emptyQuery : AnalyticsQuery :=
  { startDate := none, endDate := none, channel := none, user := none
    command := none, hasError := none }

/-- JavaScript truthiness of an optional string: present and non-empty. -/
def jsTruthy (o : Option String) : Bool :=
  match o with
  | none => false
  | some str => str ≠ ""

/-- The filter body of `getEventsInRange`: the record's instant must lie in
`[startDate, endDate]` and each supplied (truthy) filter must match
exactly; `hasError` compares against `errorStatus?.hasError || false`. -/
def matchesQuery (startDate endDate : Nat) (q : AnalyticsQuery)
    (e : AnalyticsEvent) : Bool :=
  if e.timestamp < startDate then false
  else if endDate < e.timestamp then false
  else if jsTruthy q.channel && !(some e.channel = q.channel : Bool) then false
  else if jsTruthy q.user && !(some e.user = q.user : Bool) then false
  else if jsTruthy q.command && !(e.command = q.command : Bool) then false
  else
    match q.hasError with
    | none => true
    | some b => ((e.errorStatus.map (·.hasError)).getD false) = b

/-- The day indices visited by the loop
`while (currentDate <= endDate) { ...; currentDate += one day }`
starting at `startDate`.  Written in closed form so that it computes by
kernel reduction; `rangeDays_loop` below proves it satisfies exactly the
loop's recurrence. -/
def rangeDays (startDate endDate : Nat) : List Nat :=
  if startDate ≤ endDate then
    (List.range ((endDate - startDate) / msPerDay + 1)).map
      (fun k => (startDate + msPerDay * k) / msPerDay)
  else []

/-- Loading and filtering of the visited partitions, in loop order,
rejecting at the first partition whose load rejects. -/
def collectRange (days : List Nat) (startDate endDate : Nat)
    (q : AnalyticsQuery) (fs : List (Nat × List FileLine)) :
    Except Unit (List AnalyticsEvent) :=
  match days with
  | [] => .ok []
  | d :: rest =>
    match loadEventsFromFile fs d with
    | .error e => .error e
    | .ok dailyEvents =>
      match collectRange rest startDate endDate q fs with
      | .error e => .error e
      | .ok restEvents =>
        .ok (dailyEvents.filter (matchesQuery startDate endDate q) ++ restEvents)

/-- `a.timestamp.localeCompare(b.timestamp)` ascending. -/
def tsLe (a b : AnalyticsEvent) : Prop := a.timestamp ≤ b.timestamp

instance : DecidableRel tsLe := fun a b => Nat.decLe a.timestamp b.timestamp

instance : IsTotal AnalyticsEvent tsLe :=
  ⟨fun a b => Nat.le_total a.timestamp b.timestamp⟩

instance : IsTrans AnalyticsEvent tsLe :=
  ⟨fun _ _ _ h₁ h₂ => Nat.le_trans h₁ h₂⟩

/-- `events.sort((a, b) => a.timestamp.localeCompare(b.timestamp))`:
JavaScript's sort is stable, as is insertion sort. -/
def sortByTimestamp (events : List AnalyticsEvent) : List AnalyticsEvent :=
  events.insertionSort tsLe

/-- `getEventsInRange(startDate, endDate, query)`: flush barrier over every
buffered date-key, then per-day load-and-filter, then the final sort. -/
def getEventsInRange (startDate endDate : Nat) (q : AnalyticsQuery)
    (s : AnalyticsState) : Except Unit (List AnalyticsEvent) × AnalyticsState :=
  match flushAllKeys (s.writeQueue.map Prod.fst) s with
  | (.error e, s₁) => (.error e, s₁)
  | (.ok _, s₁) =>
    match collectRange (rangeDays startDate endDate) startDate endDate q s₁.fs with
    | .error e => (.error e, s₁)
    | .ok events => (.ok (sortByTimestamp events), s₁)

/-- `new Set(xs).size`. -/
def uniqueCount {α : Type} [DecidableEq α] (xs : List α) : Nat :=
  xs.dedup.length

/-- `events.reduce((sum, e) => sum + e.responseTime, 0)`. -/
def totalResponseTimeOf (events : List AnalyticsEvent) : Rat :=
  events.foldl (fun sum e => sum + e.responseTime) 0

/-- `events.reduce((sum, e) => sum + (e.tokensUsed?.total || 0), 0)`. -/
def totalTokensOf (events : List AnalyticsEvent) : Rat :=
  events.foldl (fun sum e => sum + ((e.tokensUsed.map (·.total)).getD 0)) 0

/-- `events.filter(e => e.errorStatus?.hasError).length`. -/
def errorCountOf (events : List AnalyticsEvent) : Nat :=
  (events.filter (fun e => (e.errorStatus.map (·.hasError)).getD false)).length

/-- Which usage bucket an event falls into: its `command` when that is
truthy (present and non-empty), else the synthetic `query` bucket when
`query` is truthy, else none — the shared
`if (e.command) ... else if (e.query) ...` pattern of the three
aggregators. -/
def bucketOf (e : AnalyticsEvent) : Option String :=
  if jsTruthy e.command then e.command
  else if jsTruthy e.query then some "query"
  else none

/-- `counts[c] = (counts[c] || 0) + 1`. -/
def bumpA (m : List (String × Nat)) (c : String) : List (String × Nat) :=
  setA m c (((lookupA m c).getD 0) + 1)

/-- The `commandUsage` / `commandCounts` accumulation loop.  The pairs are
kept in property-creation (first-seen) order, which is how the object
stores its string keys; the enumeration order that `Object.entries`
exposes is modelled separately by `objectEntries` below, because
array-index keys enumerate out of creation order. -/
def buildCommandCounts (events : List AnalyticsEvent) : List (String × Nat) :=
  events.foldl
    (fun m e =>
      match bucketOf e with
      | some c => bumpA m c
      | none => m)
    []

/-- The value of a decimal digit character. -/
def digitVal (c : Char) : Option Nat :=
  if c = '0' then some 0 else if c = '1' then some 1 else if c = '2' then some 2
  else if c = '3' then some 3 else if c = '4' then some 4 else if c = '5' then some 5
  else if c = '6' then some 6 else if c = '7' then some 7 else if c = '8' then some 8
  else if c = '9' then some 9 else none

/-- Reads a run of decimal digits into an accumulator; fails at the first
non-digit. -/
def parseDigitsAux (acc : Nat) : List Char → Option Nat
  | [] => some acc
  | c :: rest =>
    match digitVal c with
    | some d => parseDigitsAux (acc * 10 + d) rest
    | none => none

/-- ECMAScript array-index test: `P` is an array index when it is the
canonical decimal string of some `n` with `n < 2^32 − 1` (so no leading
zeros, no sign, no empty string — those fail the `toString n = s`
round-trip); returns that `n`. -/
def arrayIndexOf (s : String) : Option Nat :=
  match parseDigitsAux 0 s.data with
  | some n => if toString n = s ∧ n < 4294967295 then some n else none
  | none => none

/-- Ascending numeric order on array-index keys (only applied to pairs
whose key is an array index; keys of a single object are distinct, so no
ties arise). -/
def indexLe (x y : String × Nat) : Prop :=
  (arrayIndexOf x.1).getD 0 ≤ (arrayIndexOf y.1).getD 0

instance : DecidableRel indexLe :=
  fun x y => Nat.decLe ((arrayIndexOf x.1).getD 0) ((arrayIndexOf y.1).getD 0)

instance : IsTotal (String × Nat) indexLe :=
  ⟨fun x y => Nat.le_total ((arrayIndexOf x.1).getD 0) ((arrayIndexOf y.1).getD 0)⟩

instance : IsTrans (String × Nat) indexLe :=
  ⟨fun _ _ _ h₁ h₂ => Nat.le_trans h₁ h₂⟩

/-- `Object.entries(counts)`: per ECMAScript `OrdinaryOwnPropertyKeys`,
the array-index keys come first in ascending numeric order, then the
remaining string keys in property-creation order. -/
def objectEntries (m : List (String × Nat)) : List (String × Nat) :=
  (m.filter (fun p => (arrayIndexOf p.1).isSome)).insertionSort indexLe ++
    m.filter (fun p => (arrayIndexOf p.1).isNone)

/-- The comparator `([, a], [, b]) => b - a`: `x` may precede `y` when
`y.count ≤ x.count`, descending by count. -/
def countGe (x y : String × Nat) : Prop := y.2 ≤ x.2

instance : DecidableRel countGe := fun x y => Nat.decLe y.2 x.2

instance : IsTotal (String × Nat) countGe :=
  ⟨fun x y => Nat.le_total y.2 x.2⟩

instance : IsTrans (String × Nat) countGe :=
  ⟨fun _ _ _ h₁ h₂ => Nat.le_trans h₂ h₁⟩

/-- `Object.entries(counts).sort(([, a], [, b]) => b - a)`: JavaScript's
sort is stable, as is insertion sort. -/
def sortByCountDesc (m : List (String × Nat)) : List (String × Nat) :=
  m.insertionSort countGe

/-- `Object.entries(counts).sort(([, a], [, b]) => b - a).slice(0, 5)`,
shared by `getChannelStats.mostUsedCommands` and
`getDailyStats.topCommands`. -/
def top5Commands (m : List (String × Nat)) : List (String × Nat) :=
  (sortByCountDesc (objectEntries m)).take 5

/-- `interface AnalyticsStats` (timeRange flattened to its two instants). -/
structure AnalyticsStats where
  totalInteractions : Nat
  totalUsers : Nat
  totalChannels : Nat
  averageResponseTime : Rat
  totalTokensUsed : Rat
  errorRate : Rat
  commandUsage : List (String × Nat)
  timeRangeStart : Nat
  timeRangeEnd : Nat
deriving DecidableEq

/-- `getStats`'s resolved start instant: `query.startDate` if supplied,
else `Date.now() - 7 * 24 * 60 * 60 * 1000` (the model assumes `now` is at
least seven days past the epoch, as every real clock value is). -/
def statsStartDate (now : Nat) (q : AnalyticsQuery) : Nat :=
  q.startDate.getD (now - 7 * 24 * 60 * 60 * 1000)

/-- `getStats`'s resolved end instant: `query.endDate` if supplied, else
`Date.now()`. -/
def statsEndDate (now : Nat) (q : AnalyticsQuery) : Nat :=
  q.endDate.getD now

/-- `getStats(query)`: range query then streaming aggregation; an empty
result set short-circuits to the all-zero result. -/
def getStats (now : Nat) (q : AnalyticsQuery) (s : AnalyticsState) :
    Except Unit AnalyticsStats × AnalyticsState :=
  let startDate := statsStartDate now q
  let endDate := statsEndDate now q
  match getEventsInRange startDate endDate q s with
  | (.error e, s₁) => (.error e, s₁)
  | (.ok events, s₁) =>
    if events.length = 0 then
      (.ok { totalInteractions := 0, totalUsers := 0, totalChannels := 0
             averageResponseTime := 0, totalTokensUsed := 0, errorRate := 0
             commandUsage := []
             timeRangeStart := startDate, timeRangeEnd := endDate }, s₁)
    else
      (.ok { totalInteractions := events.length
             totalUsers := uniqueCount (events.map (·.user))
             totalChannels := uniqueCount (events.map (·.channel))
             averageResponseTime := totalResponseTimeOf events / events.length
             totalTokensUsed := totalTokensOf events
             errorRate := (errorCountOf events : Rat) / events.length
             commandUsage := buildCommandCounts events
             timeRangeStart := startDate, timeRangeEnd := endDate }, s₁)

/-- `interface ChannelStats`. -/
structure ChannelStats where
  channelId : String
  channelType : String
  totalInteractions : Nat
  uniqueUsers : Nat
  averageResponseTime : Rat
  totalTokensUsed : Rat
  errorRate : Rat
  mostUsedCommands : List (String × Nat)
  lastActivity : Nat
deriving DecidableEq

/-- `getChannelStats(channelId, query)`: 30-day default range, the query's
`channel` overridden with `channelId`; `null` (here `none`) on an empty
result set. -/
def getChannelStats (now : Nat) (channelId : String) (q : AnalyticsQuery)
    (s : AnalyticsState) : Except Unit (Option ChannelStats) × AnalyticsState :=
  let startDate := q.startDate.getD (now - 30 * 24 * 60 * 60 * 1000)
  let endDate := q.endDate.getD now
  match getEventsInRange startDate endDate { q with channel := some channelId } s with
  | (.error e, s₁) => (.error e, s₁)
  | (.ok events, s₁) =>
    match events with
    | [] => (.ok none, s₁)
    | e₀ :: _ =>
      (.ok (some
        { channelId := channelId
          channelType := if jsTruthy e₀.channelType then e₀.channelType.getD "" else "unknown"
          totalInteractions := events.length
          uniqueUsers := uniqueCount (events.map (·.user))
          averageResponseTime := totalResponseTimeOf events / events.length
          totalTokensUsed := totalTokensOf events
          errorRate := (errorCountOf events : Rat) / events.length
          mostUsedCommands := top5Commands (buildCommandCounts events)
          lastActivity := events.foldl
            (fun latest e => if latest < e.timestamp then e.timestamp else latest)
            e₀.timestamp }), s₁)

/-- `hour.toString().padStart(2, '0')` for `hour < 24`. -/
def pad2 (h : Nat) : String :=
  if h < 10 then "0" ++ toString h else toString h

/-- The zero-initialized 24-bucket hourly histogram `{ "00": 0, ..., "23": 0 }`. -/
def hourlyInit : List (String × Nat) :=
  (List.range 24).map (fun h => (pad2 h, 0))

/-- `interface DailyStats` (`date` as the UTC day index). -/
structure DailyStats where
  date : Nat
  totalInteractions : Nat
  uniqueUsers : Nat
  uniqueChannels : Nat
  averageResponseTime : Rat
  totalTokensUsed : Rat
  errorCount : Nat
  hourlyDistribution : List (String × Nat)
  topCommands : List (String × Nat)
deriving DecidableEq

/-- `getDailyStats(date)`: the fixed UTC day window
`[T00:00:00.000Z, T23:59:59.999Z]`, no filters; the histogram starts from
`hourlyInit` and each event increments its UTC hour's bucket. -/
def getDailyStats (d : Nat) (s : AnalyticsState) :
    Except Unit DailyStats × AnalyticsState :=
  let startOfDay := d * msPerDay
  let endOfDay := d * msPerDay + (msPerDay - 1)
  match getEventsInRange startOfDay endOfDay emptyQuery s with
  | (.error e, s₁) => (.error e, s₁)
  | (.ok events, s₁) =>
    (.ok { date := d
           totalInteractions := events.length
           uniqueUsers := uniqueCount (events.map (·.user))
           uniqueChannels := uniqueCount (events.map (·.channel))
           averageResponseTime :=
             if 0 < events.length then totalResponseTimeOf events / events.length else 0
           totalTokensUsed := totalTokensOf events
           errorCount := errorCountOf events
           hourlyDistribution :=
             events.foldl (fun m e => bumpA m (pad2 (hourOf e.timestamp))) hourlyInit
           topCommands := top5Commands (buildCommandCounts events) }, s₁)

/-!
The asynchronous small-step machine.

The sequential definitions above execute each `await` atomically, which is
the behaviour when no other task runs between suspension and resumption.
`flushEvents`, however, suspends at `await this.appendEventsToFile(...)`
with the flushed queue entry still present in `writeQueue`: other tasks
(later `logEvent` calls, timer callbacks) can run during the write, and
only when it resolves does `flushEvents` delete the queue entry and the
timer.  The machine below makes that interleaving explicit.  Each action is
one synchronously-executed slice of the event loop:

* `enqueue` is `logEvent` up to (and including) the point where it either
  starts a batch flush — snapshotting the queue contents into an issued
  write, as `appendEventsToFile` serializes them synchronously before its
  own `await` — or arms the timer;
* `timerFire` is an armed timer's callback, which starts a flush the same
  way (`clearTimeout` guarantees a cancelled timer never reaches this);
* `ioComplete` is the resolution of the oldest issued `fs.appendFile`:
  the lines land in the file and the continuation of `flushEvents` runs,
  deleting the whole queue entry and the timer entry for that key.
-/

/-- `AnalyticsState` plus the issued-but-unresolved `fs.appendFile` calls,
oldest first, each carrying its date-key and the serialized batch. -/
structure AsyncState where
  writeQueue : List (Nat × List AnalyticsEvent)
  writeTimeout : List Nat
  fs : List (Nat × List FileLine)
  pending : List (Nat × List AnalyticsEvent)
deriving DecidableEq

/-- One event-loop slice (see the module comment above). -/
inductive AsyncAction : Type where
  | enqueue (now : Nat) (eid : String) (data : AnalyticsEventData)
  | timerFire (d : Nat)
  | ioComplete

/-- The transition function of the machine. -/
def asyncStep (s : AsyncState) : AsyncAction → AsyncState
  | .enqueue now eid data =>
    let event := mkAnalyticsEvent now eid data
    let dateKey := dayOf event.timestamp
    let queued := ((lookupA s.writeQueue dateKey).getD []) ++ [event]
    let s₁ := { s with writeQueue := setA s.writeQueue dateKey queued }
    if batchSize ≤ queued.length then
      { s₁ with pending := s₁.pending ++ [(dateKey, queued)] }
    else if dateKey ∈ s₁.writeTimeout then s₁
    else { s₁ with writeTimeout := s₁.writeTimeout ++ [dateKey] }
  | .timerFire d =>
    if d ∈ s.writeTimeout then
      match lookupA s.writeQueue d with
      | none => s
      | some events =>
        if events.length = 0 then s
        else { s with pending := s.pending ++ [(d, events)] }
    else s
  | .ioComplete =>
    match s.pending with
    | [] => s
    | (d, batch) :: rest =>
      { s with
        fs := setA s.fs d (((lookupA s.fs d).getD []) ++ batch.map some),
        writeQueue := eraseA s.writeQueue d,
        writeTimeout := s.writeTimeout.filter (fun k => k ≠ d),
        pending := rest }

/-- Run a schedule of event-loop slices from a state. -/
def runAsync (acts : List AsyncAction) (s : AsyncState) : AsyncState :=
  acts.foldl asyncStep s

/-- A fresh service instance over an empty log directory with no I/O
faults. -/
def initState : AnalyticsState :=
  { writeQueue := [], writeTimeout := [], fs := [], failDays := [] }

/-- A fresh service instance in the asynchronous machine. -/
def initAsyncState : AsyncState :=
  { writeQueue := [], writeTimeout := [], fs := [], pending := [] }

/-!  Lemmas about the association-list primitives. -/

theorem lookupA_setA_self {κ α : Type} [DecidableEq κ] (m : List (κ × α)) (k : κ) (v : α) :
    lookupA (setA m k v) k = some v := by
  induction m with
  | nil => simp [lookupA, setA]
  | cons p rest ih =>
    by_cases h : p.1 = k <;> simp [lookupA, setA, h, ih]

theorem lookupA_setA_ne {κ α : Type} [DecidableEq κ] (m : List (κ × α)) (k k' : κ) (v : α)
    (h : k' ≠ k) : lookupA (setA m k v) k' = lookupA m k' := by
  have hk : ¬ (k = k') := fun hh => h hh.symm
  induction m with
  | nil => simp [lookupA, setA, hk]
  | cons p rest ih =>
    by_cases hp : p.1 = k
    · have h2 : ¬ (p.1 = k') := by rw [hp]; exact hk
      simp [setA, hp, lookupA, h2, hk]
    · simp [setA, hp, lookupA, ih]

theorem lookupA_eraseA_self {κ α : Type} [DecidableEq κ] (m : List (κ × α)) (k : κ) :
    lookupA (eraseA m k) k = none := by
  induction m with
  | nil => simp [lookupA, eraseA]
  | cons p rest ih =>
    by_cases h : p.1 = k <;> simp_all [lookupA, eraseA, List.filter_cons]

theorem lookupA_eraseA_ne {κ α : Type} [DecidableEq κ] (m : List (κ × α)) (k k' : κ)
    (h : k' ≠ k) : lookupA (eraseA m k) k' = lookupA m k' := by
  induction m with
  | nil => simp [lookupA, eraseA]
  | cons p rest ih =>
    by_cases hp : p.1 = k
    · subst hp
      have : p.1 ≠ k' := fun hh => h hh.symm
      simp_all [lookupA, eraseA, List.filter_cons]
    · by_cases hp' : p.1 = k' <;> simp_all [lookupA, eraseA, List.filter_cons]

theorem lookupA_eq_none {κ α : Type} [DecidableEq κ] (m : List (κ × α)) (k : κ)
    (h : k ∉ m.map Prod.fst) : lookupA m k = none := by
  induction m with
  | nil => simp [lookupA]
  | cons p rest ih =>
    simp only [List.map_cons, List.mem_cons] at h
    push_neg at h
    have h2 : ¬ (p.1 = k) := fun hh => h.1 hh.symm
    simp [lookupA, h2, ih h.2]

theorem keys_setA {κ α : Type} [DecidableEq κ] (m : List (κ × α)) (k : κ) (v : α) :
    (setA m k v).map Prod.fst =
      if k ∈ m.map Prod.fst then m.map Prod.fst else m.map Prod.fst ++ [k] := by
  induction m with
  | nil => simp [setA]
  | cons p rest ih =>
    by_cases h : p.1 = k
    · simp [setA, h]
    · have h3 : ¬ (k = p.1) := fun hh => h hh.symm
      simp only [setA, if_neg h, List.map_cons, ih, List.mem_cons]
      by_cases hm : k ∈ rest.map Prod.fst <;> simp [hm, h3]

theorem keys_eraseA_cons {κ α : Type} [DecidableEq κ] (k : κ) (v : α)
    (rest : List (κ × α)) (h : k ∉ rest.map Prod.fst) :
    eraseA ((k, v) :: rest) k = rest := by
  simp only [eraseA, List.filter_cons]
  have : ¬ ((k, v).1 ≠ k) := by simp
  simp only [decide_eq_true_eq, this, if_false]
  apply List.filter_eq_self.mpr
  intro p hp
  simp only [decide_eq_true_eq]
  intro hk
  exact h (hk ▸ List.mem_map_of_mem Prod.fst hp)

theorem keys_eraseA_sublist {κ α : Type} [DecidableEq κ] (m : List (κ × α)) (k : κ) :
    ((eraseA m k).map Prod.fst).Sublist (m.map Prod.fst) :=
  List.Sublist.map Prod.fst (List.filter_sublist m)

/-!  Lemmas about loading. -/

theorem parseLines_map_some (events : List AnalyticsEvent) :
    parseLines (events.map some) = some events := by
  induction events with
  | nil => simp [parseLines]
  | cons e rest ih => simp [parseLines, ih]

theorem parseLines_all_isSome (lines : List FileLine)
    (h : ∀ x ∈ lines, x.isSome = true) :
    parseLines lines = some (lines.filterMap id) := by
  induction lines with
  | nil => simp [parseLines]
  | cons x rest ih =>
    match x, h x (by simp) with
    | some e, _ =>
      have := ih (fun y hy => h y (by simp [hy]))
      simp [parseLines, this]

theorem parseLines_of_mem_none (lines : List FileLine) (h : none ∈ lines) :
    parseLines lines = none := by
  induction lines with
  | nil => simp at h
  | cons x rest ih =>
    match x with
    | none => simp [parseLines]
    | some e =>
      simp only [List.mem_cons] at h
      rcases h with h | h
      · exact absurd h.symm (by simp)
      · simp [parseLines, ih h]

/-!  The write-path ledger: every event accepted by `logEvent` sits either
in its partition file or in its date-key's queue, in order. -/

/-- The queue contents for a date-key (empty when absent). -/
def qd (s : AnalyticsState) (d : Nat) : List AnalyticsEvent :=
  (lookupA s.writeQueue d).getD []

/-- The records persisted in a partition (the parseable lines, in order). -/
def persisted (s : AnalyticsState) (d : Nat) : List AnalyticsEvent :=
  ((lookupA s.fs d).getD []).filterMap id

/-- Invariants of every reachable `AnalyticsState` with a healthy disk:
queue keys are unique, queue entries are non-empty, every stored file line
parses, and no partition's append faults. -/
structure Inv (s : AnalyticsState) : Prop where
  nodupKeys : (s.writeQueue.map Prod.fst).Nodup
  nonemptyVals : ∀ d q, lookupA s.writeQueue d = some q → q ≠ []
  parseable : ∀ d l, lookupA s.fs d = some l → ∀ x ∈ l, x.isSome = true
  noFail : s.failDays = []

theorem loadEventsFromFile_of_parseable (s : AnalyticsState) (d : Nat)
    (h : ∀ d' l, lookupA s.fs d' = some l → ∀ x ∈ l, x.isSome = true) :
    loadEventsFromFile s.fs d = .ok (persisted s d) := by
  unfold loadEventsFromFile persisted
  cases hl : lookupA s.fs d with
  | none => simp
  | some l => simp [parseLines_all_isSome l (h d l hl)]

/-- Unfolding of a successful flush of a non-empty queue. -/
theorem flushEvents_some (d : Nat) (s : AnalyticsState) (events : List AnalyticsEvent)
    (hq : lookupA s.writeQueue d = some events) (hne : events ≠ [])
    (hfail : d ∉ s.failDays) :
    flushEvents d s = (.ok (), { s with
      fs := setA s.fs d (((lookupA s.fs d).getD []) ++ events.map some),
      writeQueue := eraseA s.writeQueue d,
      writeTimeout := s.writeTimeout.filter (fun k => k ≠ d) }) := by
  have hlen : ¬ events.length = 0 := by simpa using hne
  simp [flushEvents, hq, hlen, appendEventsToFile, hfail]

/-- A flush of an absent queue entry is a no-op. -/
theorem flushEvents_absent (d : Nat) (s : AnalyticsState)
    (hq : lookupA s.writeQueue d = none) : flushEvents d s = (.ok (), s) := by
  simp [flushEvents, hq]

/-- A flush of an empty queue entry is a no-op. -/
theorem flushEvents_empty (d : Nat) (s : AnalyticsState)
    (hq : lookupA s.writeQueue d = some []) : flushEvents d s = (.ok (), s) := by
  simp [flushEvents, hq]

theorem lookupA_cons_self {κ α : Type} [DecidableEq κ] (k : κ) (v : α)
    (rest : List (κ × α)) : lookupA ((k, v) :: rest) k = some v := by
  simp [lookupA]

theorem lookupA_cons_ne {κ α : Type} [DecidableEq κ] (k d : κ) (v : α)
    (rest : List (κ × α)) (h : d ≠ k) :
    lookupA ((k, v) :: rest) d = lookupA rest d := by
  have h2 : ¬ (k = d) := fun hh => h hh.symm
  simp [lookupA, h2]

theorem filterMap_id_map_some {α : Type} (l : List α) :
    (l.map some).filterMap id = l := by
  induction l with
  | nil => simp
  | cons x rest ih => simp [ih]

/-- Flushing every queued date-key in map-iteration order succeeds on a
healthy disk, empties the queue, only removes timers, and moves each
key's queued events to the end of its partition. -/
theorem flushAllKeys_spec (queue : List (Nat × List AnalyticsEvent)) :
    ∀ (s : AnalyticsState), s.writeQueue = queue → Inv s →
    ∃ s', flushAllKeys (queue.map Prod.fst) s = (.ok (), s') ∧
      s'.writeQueue = [] ∧ s'.writeTimeout ⊆ s.writeTimeout ∧
      Inv s' ∧ ∀ d, persisted s' d = persisted s d ++ qd s d := by
  induction queue with
  | nil =>
    intro s hq hInv
    refine ⟨s, by simp [flushAllKeys], hq, fun _ h => h, hInv, ?_⟩
    intro d
    have hnone : lookupA s.writeQueue d = none := by
      rw [hq]; rfl
    simp [qd, hnone]
  | cons p rest ih =>
    intro s hq hInv
    obtain ⟨k, v⟩ := p
    have hk_lookup : lookupA s.writeQueue k = some v := by
      rw [hq]; exact lookupA_cons_self k v rest
    have hv : v ≠ [] := hInv.nonemptyVals k v hk_lookup
    have hfail : k ∉ s.failDays := by rw [hInv.noFail]; simp
    have hflush := flushEvents_some k s v hk_lookup hv hfail
    have hkeys : (List.map Prod.fst ((k, v) :: rest)).Nodup := by
      rw [← hq]; exact hInv.nodupKeys
    simp only [List.map_cons, List.nodup_cons] at hkeys
    set s₁ : AnalyticsState := { s with
      fs := setA s.fs k (((lookupA s.fs k).getD []) ++ v.map some),
      writeQueue := eraseA s.writeQueue k,
      writeTimeout := s.writeTimeout.filter (fun x => x ≠ k) } with hs₁
    have hq₁ : s₁.writeQueue = rest := by
      show eraseA s.writeQueue k = rest
      rw [hq]; exact keys_eraseA_cons k v rest hkeys.1
    have hInv₁ : Inv s₁ := by
      refine ⟨?_, ?_, ?_, hInv.noFail⟩
      · rw [hq₁]; exact hkeys.2
      · intro d q hlq
        rw [hq₁] at hlq
        by_cases hdk : d = k
        · subst hdk
          rw [lookupA_eq_none rest d hkeys.1] at hlq
          exact absurd hlq (by simp)
        · have : lookupA s.writeQueue d = some q := by
            rw [hq, lookupA_cons_ne k d v rest hdk]; exact hlq
          exact hInv.nonemptyVals d q this
      · intro d l hl
        by_cases hdk : d = k
        · subst hdk
          have : lookupA s₁.fs d = some (((lookupA s.fs d).getD []) ++ v.map some) :=
            lookupA_setA_self s.fs d _
          rw [hl] at this
          obtain rfl := Option.some.inj this.symm
          intro x hx
          rcases List.mem_append.mp hx with hx | hx
          · cases hfs : lookupA s.fs d with
            | none => rw [hfs] at hx; simp at hx
            | some l₀ =>
              rw [hfs] at hx
              exact hInv.parseable d l₀ hfs x hx
          · obtain ⟨e, _, rfl⟩ := List.mem_map.mp hx
            rfl
        · have : lookupA s₁.fs d = lookupA s.fs d :=
            lookupA_setA_ne s.fs k d _ hdk
          rw [this] at hl
          exact hInv.parseable d l hl
    obtain ⟨s', hrun, hq', hsub, hInv', hpers⟩ := ih s₁ hq₁ hInv₁
    refine ⟨s', ?_, hq', ?_, hInv', ?_⟩
    · show flushAllKeys (k :: rest.map Prod.fst) s = (.ok (), s')
      simp only [flushAllKeys, hflush]
      exact hrun
    · exact fun x hx => List.mem_of_mem_filter (hsub hx)
    · intro d
      rw [hpers d]
      by_cases hdk : d = k
      · subst hdk
        have hp₁ : persisted s₁ d = persisted s d ++ v := by
          show ((lookupA s₁.fs d).getD []).filterMap id = _
          rw [show lookupA s₁.fs d = some (((lookupA s.fs d).getD []) ++ v.map some) from
            lookupA_setA_self s.fs d _]
          simp only [Option.getD_some, List.filterMap_append, filterMap_id_map_some]
          rfl
        have hq₁d : qd s₁ d = [] := by
          show (lookupA s₁.writeQueue d).getD [] = []
          rw [hq₁, lookupA_eq_none rest d hkeys.1]
          rfl
        have hqsd : qd s d = v := by
          show (lookupA s.writeQueue d).getD [] = v
          rw [hk_lookup]
          rfl
        rw [hp₁, hq₁d, hqsd, List.append_nil]
      · have hp₁ : persisted s₁ d = persisted s d := by
          show ((lookupA s₁.fs d).getD []).filterMap id = _
          rw [show lookupA s₁.fs d = lookupA s.fs d from lookupA_setA_ne s.fs k d _ hdk]
          rfl
        have hq₁d : qd s₁ d = qd s d := by
          show (lookupA s₁.writeQueue d).getD [] = (lookupA s.writeQueue d).getD []
          rw [hq₁, hq, lookupA_cons_ne k d v rest hdk]
        rw [hp₁, hq₁d]

/-- `cleanup()` succeeds on a healthy disk: afterwards no queue entry and
no timer remains and each partition has gained exactly its queued events. -/
theorem cleanup_spec (s : AnalyticsState) (hInv : Inv s) :
    ∃ s', cleanup s = (.ok (), s') ∧ s'.writeQueue = [] ∧ s'.writeTimeout = [] ∧
      Inv s' ∧ ∀ d, persisted s' d = persisted s d ++ qd s d := by
  have hInv₀ : Inv { s with writeTimeout := ([] : List Nat) } :=
    ⟨hInv.nodupKeys, hInv.nonemptyVals, hInv.parseable, hInv.noFail⟩
  obtain ⟨s', hrun, hq', hsub, hInv', hpers⟩ :=
    flushAllKeys_spec s.writeQueue { s with writeTimeout := ([] : List Nat) } rfl hInv₀
  refine ⟨s', hrun, hq', ?_, hInv', hpers⟩
  exact List.eq_nil_iff_forall_not_mem.mpr (fun x hx => (List.not_mem_nil x) (hsub hx))

/-- Parseability of the store is preserved by appending serialized
records to a partition. -/
theorem parseable_setA_append (fs : List (Nat × List FileLine)) (k : Nat)
    (v : List AnalyticsEvent)
    (h : ∀ d l, lookupA fs d = some l → ∀ x ∈ l, x.isSome = true) :
    ∀ d l, lookupA (setA fs k (((lookupA fs k).getD []) ++ v.map some)) d = some l →
      ∀ x ∈ l, x.isSome = true := by
  intro d l hl
  by_cases hdk : d = k
  · subst hdk
    have heq : lookupA (setA fs d (((lookupA fs d).getD []) ++ v.map some)) d =
        some (((lookupA fs d).getD []) ++ v.map some) := lookupA_setA_self fs d _
    rw [hl] at heq
    obtain rfl := Option.some.inj heq.symm
    intro x hx
    rcases List.mem_append.mp hx with hx | hx
    · cases hfs : lookupA fs d with
      | none => rw [hfs] at hx; simp at hx
      | some l₀ =>
        rw [hfs] at hx
        exact h d l₀ hfs x hx
    · obtain ⟨e, _, rfl⟩ := List.mem_map.mp hx
      rfl
  · rw [lookupA_setA_ne fs k d _ hdk] at hl
    exact h d l hl

/-- One `logEvent` call on a healthy disk succeeds and extends the ledger
(partition content followed by queue content) of the event's date-key by
exactly the constructed record. -/
theorem logEvent_spec (now : Nat) (eid : String) (data : AnalyticsEventData)
    (s : AnalyticsState) (hInv : Inv s) :
    ∃ s', logEvent now eid data s = (.ok (), s') ∧ Inv s' ∧
      ∀ d, persisted s' d ++ qd s' d =
        persisted s d ++ qd s d ++
          (if dayOf now = d then [mkAnalyticsEvent now eid data] else []) := by
  set e := mkAnalyticsEvent now eid data with he
  set d₀ := dayOf now with hd₀
  set queued := ((lookupA s.writeQueue d₀).getD []) ++ [e] with hqueued
  set s₁ : AnalyticsState := { s with writeQueue := setA s.writeQueue d₀ queued } with hs₁
  have hlogEq : logEvent now eid data s =
      (if batchSize ≤ queued.length then flushEvents d₀ s₁
       else if d₀ ∈ s₁.writeTimeout then (.ok (), s₁)
       else (.ok (), { s₁ with writeTimeout := s₁.writeTimeout ++ [d₀] })) := rfl
  have hqne : queued ≠ [] := by simp [hqueued]
  have hlq₁ : lookupA s₁.writeQueue d₀ = some queued := lookupA_setA_self s.writeQueue d₀ queued
  have hnodup₁ : (s₁.writeQueue.map Prod.fst).Nodup := by
    show ((setA s.writeQueue d₀ queued).map Prod.fst).Nodup
    rw [keys_setA]
    by_cases hmem : d₀ ∈ s.writeQueue.map Prod.fst
    · simpa [hmem] using hInv.nodupKeys
    · simp only [hmem, if_false]
      rw [List.nodup_append]
      exact ⟨hInv.nodupKeys, List.nodup_singleton d₀,
        fun x hx hx' => hmem ((List.mem_singleton.mp hx') ▸ hx)⟩
  have hInv₁ : Inv s₁ := by
    refine ⟨hnodup₁, ?_, hInv.parseable, hInv.noFail⟩
    intro d q hlq
    by_cases hdk : d = d₀
    · subst hdk
      rw [hlq₁] at hlq
      obtain rfl := Option.some.inj hlq
      exact hqne
    · rw [show lookupA s₁.writeQueue d = lookupA s.writeQueue d from
        lookupA_setA_ne s.writeQueue d₀ d queued hdk] at hlq
      exact hInv.nonemptyVals d q hlq
  have hqd₁ : ∀ d, qd s₁ d = if d₀ = d then queued else qd s d := by
    intro d
    by_cases hdk : d₀ = d
    · subst hdk
      simp [qd, hlq₁]
    · have hdk' : d ≠ d₀ := fun hh => hdk hh.symm
      simp [qd, hdk, lookupA_setA_ne s.writeQueue d₀ d queued hdk']
  have hpers₁ : ∀ d, persisted s₁ d = persisted s d := fun _ => rfl
  by_cases hbatch : batchSize ≤ queued.length
  · -- immediate flush path
    have hfail₁ : d₀ ∉ s₁.failDays := by
      show d₀ ∉ s.failDays
      rw [hInv.noFail]; simp
    have hflush := flushEvents_some d₀ s₁ queued hlq₁ hqne hfail₁
    refine ⟨{ s₁ with
      fs := setA s₁.fs d₀ (((lookupA s₁.fs d₀).getD []) ++ queued.map some),
      writeQueue := eraseA s₁.writeQueue d₀,
      writeTimeout := s₁.writeTimeout.filter (fun k => k ≠ d₀) }, ?_, ?_, ?_⟩
    · rw [hlogEq, if_pos hbatch, hflush]
    · refine ⟨?_, ?_, ?_, hInv.noFail⟩
      · exact (keys_eraseA_sublist s₁.writeQueue d₀).nodup hnodup₁
      · intro d q hlq
        by_cases hdk : d = d₀
        · subst hdk
          rw [show lookupA (eraseA s₁.writeQueue d₀) d₀ = none from
            lookupA_eraseA_self s₁.writeQueue d₀] at hlq
          exact absurd hlq (by simp)
        · rw [show lookupA (eraseA s₁.writeQueue d₀) d = lookupA s₁.writeQueue d from
            lookupA_eraseA_ne s₁.writeQueue d₀ d hdk] at hlq
          exact hInv₁.nonemptyVals d q hlq
      · exact parseable_setA_append s₁.fs d₀ queued hInv₁.parseable
    · intro d
      by_cases hdk : d₀ = d
      · subst hdk
        have hpers₂ : ((lookupA (setA s₁.fs d₀ (((lookupA s₁.fs d₀).getD []) ++ queued.map some)) d₀).getD []).filterMap id =
            persisted s d₀ ++ queued := by
          rw [lookupA_setA_self s₁.fs d₀ _]
          simp only [Option.getD_some, List.filterMap_append, filterMap_id_map_some]
          rfl
        have hqd₂ : (lookupA (eraseA s₁.writeQueue d₀) d₀).getD ([] : List AnalyticsEvent) = [] := by
          rw [lookupA_eraseA_self s₁.writeQueue d₀]
          rfl
        show (((lookupA (setA s₁.fs d₀ _) d₀).getD []).filterMap id) ++
            ((lookupA (eraseA s₁.writeQueue d₀) d₀).getD []) = _
        rw [hpers₂, hqd₂, List.append_nil, hqueued, if_pos rfl]
        show persisted s d₀ ++ (qd s d₀ ++ [e]) = persisted s d₀ ++ qd s d₀ ++ [e]
        rw [List.append_assoc]
      · have hdk' : d ≠ d₀ := fun hh => hdk hh.symm
        have hpers₂ : ((lookupA (setA s₁.fs d₀ (((lookupA s₁.fs d₀).getD []) ++ queued.map some)) d).getD []).filterMap id =
            persisted s d := by
          rw [lookupA_setA_ne s₁.fs d₀ d _ hdk']
          rfl
        have hqd₂ : (lookupA (eraseA s₁.writeQueue d₀) d).getD ([] : List AnalyticsEvent) =
            qd s d := by
          rw [lookupA_eraseA_ne s₁.writeQueue d₀ d hdk']
          have := hqd₁ d
          rw [if_neg hdk] at this
          exact this
        show (((lookupA (setA s₁.fs d₀ _) d).getD []).filterMap id) ++
            ((lookupA (eraseA s₁.writeQueue d₀) d).getD []) = _
        rw [hpers₂, hqd₂, if_neg hdk, List.append_nil]
  · -- timer path: the state change is confined to the queue and the timer
    have hled : ∀ (t : List Nat) (d : Nat),
        persisted { s₁ with writeTimeout := t } d ++ qd { s₁ with writeTimeout := t } d =
          persisted s d ++ qd s d ++ (if d₀ = d then [e] else []) := by
      intro t d
      have h1 : persisted { s₁ with writeTimeout := t } d = persisted s d := rfl
      have h2 : qd { s₁ with writeTimeout := t } d = qd s₁ d := rfl
      rw [h1, h2, hqd₁ d]
      by_cases hdk : d₀ = d
      · subst hdk
        rw [if_pos rfl, if_pos rfl, hqueued, ← List.append_assoc]
        rfl
      · rw [if_neg hdk, if_neg hdk, List.append_nil]
    by_cases htimer : d₀ ∈ s₁.writeTimeout
    · refine ⟨s₁, by rw [hlogEq, if_neg hbatch, if_pos htimer], hInv₁, ?_⟩
      intro d
      have := hled s₁.writeTimeout d
      simpa using this
    · refine ⟨{ s₁ with writeTimeout := s₁.writeTimeout ++ [d₀] },
        by rw [hlogEq, if_neg hbatch, if_neg htimer], ?_, hled _⟩
      exact ⟨hInv₁.nodupKeys, hInv₁.nonemptyVals, hInv₁.parseable, hInv₁.noFail⟩

/-- Sequences of `logEvent` calls succeed on a healthy disk and extend each
date-key's ledger by exactly that day's events, in call order. -/
theorem logEvents_spec (inputs : List (Nat × String × AnalyticsEventData)) :
    ∀ s, Inv s → ∃ s', logEvents inputs s = (.ok (), s') ∧ Inv s' ∧
      ∀ d, persisted s' d ++ qd s' d = persisted s d ++ qd s d ++
        ((inputs.filter (fun i => dayOf i.1 = d)).map
          (fun i => mkAnalyticsEvent i.1 i.2.1 i.2.2)) := by
  induction inputs with
  | nil =>
    intro s hInv
    exact ⟨s, rfl, hInv, by simp⟩
  | cons i rest ih =>
    intro s hInv
    obtain ⟨now, eid, data⟩ := i
    obtain ⟨s₁, hstep, hInv₁, hled₁⟩ := logEvent_spec now eid data s hInv
    obtain ⟨s', hrun, hInv', hled'⟩ := ih s₁ hInv₁
    refine ⟨s', ?_, hInv', ?_⟩
    · show logEvents ((now, eid, data) :: rest) s = (.ok (), s')
      simp only [logEvents, hstep]
      exact hrun
    · intro d
      rw [hled' d, hled₁ d]
      by_cases hd : dayOf now = d
      · simp [List.filter_cons, hd, List.append_assoc]
      · simp [List.filter_cons, hd]

theorem inv_initState : Inv initState := by
  constructor
  · simp [initState]
  · intro d q h
    simp [initState, lookupA] at h
  · intro d l h
    simp [initState, lookupA] at h
  · rfl

/-- C4: `cleanup()` cancels every pending per-date-key flush timer and
flushes every non-empty queue, so that afterwards every event previously
accepted by `logEvent` — across all dates, including queues below the
batch threshold — is persisted in the partition matching its date, in
order, and no buffered event is lost. -/
theorem cleanup_no_loss (inputs : List (Nat × String × AnalyticsEventData)) :
    ∃ s₁ s₂, logEvents inputs initState = (.ok (), s₁) ∧
      cleanup s₁ = (.ok (), s₂) ∧
      s₂.writeQueue = [] ∧ s₂.writeTimeout = [] ∧
      ∀ d, loadEventsFromFile s₂.fs d =
        .ok ((inputs.filter (fun i => dayOf i.1 = d)).map
          (fun i => mkAnalyticsEvent i.1 i.2.1 i.2.2)) := by
  obtain ⟨s₁, hlog, hInv₁, hled₁⟩ := logEvents_spec inputs initState inv_initState
  obtain ⟨s₂, hclean, hq₂, ht₂, hInv₂, hpers₂⟩ := cleanup_spec s₁ hInv₁
  refine ⟨s₁, s₂, hlog, hclean, hq₂, ht₂, ?_⟩
  intro d
  rw [loadEventsFromFile_of_parseable s₂ d hInv₂.parseable]
  refine congrArg Except.ok ?_
  rw [hpers₂ d]
  simpa [persisted, qd, initState, lookupA] using hled₁ d

/-- C10: after any successful flush of a date-key its queue entry and its
timer entry are both gone (back to the `Empty` state); a flush of an
absent or empty queue is a no-op that performs no file write — every
flush trigger (batch size, timer, query barrier, cleanup) goes through
`flushEvents`, so this covers them all. -/
theorem flushEvents_postconditions (d : Nat) (s : AnalyticsState) :
    (lookupA s.writeQueue d = none ∨ lookupA s.writeQueue d = some [] →
      flushEvents d s = (.ok (), s)) ∧
    (∀ events, lookupA s.writeQueue d = some events → events ≠ [] →
      d ∉ s.failDays →
      ∃ s', flushEvents d s = (.ok (), s') ∧
        lookupA s'.writeQueue d = none ∧ d ∉ s'.writeTimeout) := by
  constructor
  · rintro (h | h)
    · exact flushEvents_absent d s h
    · exact flushEvents_empty d s h
  · intro events hq hne hfail
    refine ⟨_, flushEvents_some d s events hq hne hfail, ?_, ?_⟩
    · exact lookupA_eraseA_self s.writeQueue d
    · simp

/-- Baseline sample payload used by the concrete witnesses below. -/
def sampleData : AnalyticsEventData :=
  { user := "u1", channel := "c1", channelType := some "im", command := none
    query := none, responseTime := 5, tokensUsed := none, errorStatus := none
    threadTs := none, isInThread := false, botMentioned := true }

theorem flushEvents_postconditions_witness :
    (lookupA initState.writeQueue 0 = none ∨ lookupA initState.writeQueue 0 = some []) ∧
    flushEvents 0 initState = (.ok (), initState) ∧
    ∃ s', flushEvents 0
        { writeQueue := [(0, [mkAnalyticsEvent 100 "a" sampleData])],
          writeTimeout := [0], fs := [], failDays := [] } = (.ok (), s') ∧
      lookupA s'.writeQueue 0 = none ∧ 0 ∉ s'.writeTimeout := by
  refine ⟨Or.inl (by decide), (flushEvents_postconditions 0 initState).1 (Or.inl (by decide)),
    (flushEvents_postconditions 0 _).2 [mkAnalyticsEvent 100 "a" sampleData]
      (by decide) (by decide) (by decide)⟩

/-- A range query rejects as soon as one visited partition's load
rejects. -/
theorem collectRange_error (sd ed : Nat) (q : AnalyticsQuery)
    (fs : List (Nat × List FileLine)) (d : Nat) :
    ∀ days : List Nat, d ∈ days → loadEventsFromFile fs d = .error () →
    collectRange days sd ed q fs = .error () := by
  intro days
  induction days with
  | nil => intro h; simp at h
  | cons k rest ih =>
    intro hmem herr
    rcases List.mem_cons.mp hmem with h | h
    · subst h
      simp [collectRange, herr]
    · cases hk : loadEventsFromFile fs k with
      | error e => cases e; simp [collectRange, hk]
      | ok evs => simp [collectRange, hk, ih h herr]

/-- C5: loading a partition whose file does not exist yields an empty
sequence, not an error; but if any non-empty line of an existing partition
fails to parse, that partition's load rejects, and a range query that
visits the partition (here with an empty write buffer, so the flush
barrier is a no-op) rejects with it. -/
theorem load_absent_ok_and_parse_failure_aborts :
    (∀ (fs : List (Nat × List FileLine)) (d : Nat), lookupA fs d = none →
      loadEventsFromFile fs d = .ok []) ∧
    (∀ (s : AnalyticsState) (startDate endDate : Nat) (q : AnalyticsQuery)
        (d : Nat) (lines : List FileLine),
      s.writeQueue = [] → d ∈ rangeDays startDate endDate →
      lookupA s.fs d = some lines → none ∈ lines →
      loadEventsFromFile s.fs d = .error () ∧
      (getEventsInRange startDate endDate q s).1 = .error ()) := by
  constructor
  · intro fs d h
    simp [loadEventsFromFile, h]
  · intro s sd ed q d lines hq hd hl hnone
    have hload : loadEventsFromFile s.fs d = .error () := by
      simp [loadEventsFromFile, hl, parseLines_of_mem_none lines hnone]
    refine ⟨hload, ?_⟩
    have hbar : flushAllKeys (s.writeQueue.map Prod.fst) s = (.ok (), s) := by
      rw [hq]; rfl
    have hcoll := collectRange_error sd ed q s.fs d (rangeDays sd ed) hd hload
    simp [getEventsInRange, hbar, hcoll]

theorem load_absent_ok_and_parse_failure_aborts_witness :
    loadEventsFromFile ([] : List (Nat × List FileLine)) 0 = .ok [] ∧
    (loadEventsFromFile [(0, [(none : FileLine)])] 0 = .error () ∧
      (getEventsInRange 0 100 emptyQuery
        { writeQueue := [], writeTimeout := [], fs := [(0, [(none : FileLine)])],
          failDays := [] }).1 = .error ()) := by
  refine ⟨load_absent_ok_and_parse_failure_aborts.1 [] 0 (by decide), ?_⟩
  exact load_absent_ok_and_parse_failure_aborts.2
    { writeQueue := [], writeTimeout := [], fs := [(0, [(none : FileLine)])], failDays := [] }
    0 100 emptyQuery 0 [(none : FileLine)] rfl (by decide) (by decide) (by decide)

/-- `logEvent` laid out as the decision it makes after pushing the event
(definitional unfolding, used by the concrete step lemmas). -/
theorem logEvent_unfold (now : Nat) (eid : String) (data : AnalyticsEventData)
    (s : AnalyticsState) :
    logEvent now eid data s =
      (if batchSize ≤ (((lookupA s.writeQueue (dayOf now)).getD []) ++
          [mkAnalyticsEvent now eid data]).length then
        flushEvents (dayOf now)
          { s with
            writeQueue := setA s.writeQueue (dayOf now)
              (((lookupA s.writeQueue (dayOf now)).getD []) ++ [mkAnalyticsEvent now eid data]) }
       else if dayOf now ∈ s.writeTimeout then
        (.ok (), { s with
          writeQueue := setA s.writeQueue (dayOf now)
            (((lookupA s.writeQueue (dayOf now)).getD []) ++ [mkAnalyticsEvent now eid data]) })
       else
        (.ok (), { s with
          writeQueue := setA s.writeQueue (dayOf now)
            (((lookupA s.writeQueue (dayOf now)).getD []) ++ [mkAnalyticsEvent now eid data]),
          writeTimeout := s.writeTimeout ++ [dayOf now] })) := rfl

/-- The very first enqueue for a fresh service arms the timer and queues
the event. -/
theorem logEvent_first (now : Nat) (eid : String) (data : AnalyticsEventData) :
    logEvent now eid data initState =
      (.ok (), { writeQueue := [(dayOf now, [mkAnalyticsEvent now eid data])],
                 writeTimeout := [dayOf now], fs := [], failDays := [] }) := by
  rw [logEvent_unfold]
  simp [initState, lookupA, setA, batchSize]

/-- Enqueues that keep the (single) date-key's queue below the batch size
just extend the queue; the already-armed timer is not re-armed and nothing
is written. -/
theorem logEvents_below_batch (d : Nat) (inputs : List (Nat × String × AnalyticsEventData))
    (hday : ∀ i ∈ inputs, dayOf i.1 = d) :
    ∀ (q₀ : List AnalyticsEvent) (fs₀ : List (Nat × List FileLine)),
    q₀.length + inputs.length < batchSize →
    logEvents inputs { writeQueue := [(d, q₀)], writeTimeout := [d], fs := fs₀, failDays := [] } =
      (.ok (),
        { writeQueue := [(d, q₀ ++ inputs.map (fun i => mkAnalyticsEvent i.1 i.2.1 i.2.2))],
          writeTimeout := [d], fs := fs₀, failDays := [] }) := by
  induction inputs with
  | nil =>
    intro q₀ fs₀ _
    simp [logEvents]
  | cons i rest ih =>
    intro q₀ fs₀ hlen
    obtain ⟨now, eid, data⟩ := i
    have hd : dayOf now = d := hday (now, eid, data) (by simp)
    have hnotbatch : ¬ batchSize ≤
        (((lookupA [(d, q₀)] d).getD ([] : List AnalyticsEvent)) ++
          [mkAnalyticsEvent now eid data]).length := by
      rw [lookupA_cons_self]
      simp only [Option.getD_some, List.length_append, List.length_singleton, batchSize]
      simp only [batchSize, List.length_cons] at hlen
      omega
    have hstep : logEvent now eid data
        { writeQueue := [(d, q₀)], writeTimeout := [d], fs := fs₀, failDays := [] } =
        (.ok (), { writeQueue := [(d, q₀ ++ [mkAnalyticsEvent now eid data])],
                   writeTimeout := [d], fs := fs₀, failDays := [] }) := by
      rw [logEvent_unfold, hd]
      simp only [hnotbatch, if_false]
      rw [lookupA_cons_self]
      simp [setA]
    show logEvents ((now, eid, data) :: rest) _ = _
    simp only [logEvents, hstep]
    have hrest : ∀ i ∈ rest, dayOf i.1 = d := fun i hi => hday i (by simp [hi])
    have hlen' : (q₀ ++ [mkAnalyticsEvent now eid data]).length + rest.length < batchSize := by
      simp only [List.length_append, List.length_singleton]
      simp only [List.length_cons] at hlen
      omega
    rw [ih hrest (q₀ ++ [mkAnalyticsEvent now eid data]) fs₀ hlen']
    simp [List.append_assoc]

/-- The enqueue that reaches the batch size flushes immediately: the queue
entry and the timer entry disappear and the batch lands in the event's
partition. -/
theorem logEvent_batch_step (now : Nat) (eid : String) (data : AnalyticsEventData)
    (d : Nat) (q₀ : List AnalyticsEvent) (fs₀ : List (Nat × List FileLine))
    (hd : dayOf now = d) (hlen : q₀.length + 1 = batchSize)
    (hfs : lookupA fs₀ d = none) :
    logEvent now eid data
      { writeQueue := [(d, q₀)], writeTimeout := [d], fs := fs₀, failDays := [] } =
      (.ok (), { writeQueue := [], writeTimeout := [],
                 fs := setA fs₀ d ((q₀ ++ [mkAnalyticsEvent now eid data]).map some),
                 failDays := [] }) := by
  have hbatch : batchSize ≤
      (((lookupA [(d, q₀)] d).getD ([] : List AnalyticsEvent)) ++
        [mkAnalyticsEvent now eid data]).length := by
    rw [lookupA_cons_self]
    simp only [Option.getD_some, List.length_append, List.length_singleton]
    omega
  rw [logEvent_unfold, hd]
  simp only [hbatch, if_true]
  have hq₁ : lookupA (setA [(d, q₀)] d
      (((lookupA [(d, q₀)] d).getD ([] : List AnalyticsEvent)) ++
        [mkAnalyticsEvent now eid data])) d =
      some (q₀ ++ [mkAnalyticsEvent now eid data]) := by
    rw [lookupA_cons_self]
    exact lookupA_setA_self _ d _
  have hflush := flushEvents_some d
    { writeQueue := setA [(d, q₀)] d
        (((lookupA [(d, q₀)] d).getD ([] : List AnalyticsEvent)) ++
          [mkAnalyticsEvent now eid data]),
      writeTimeout := [d], fs := fs₀, failDays := [] }
    (q₀ ++ [mkAnalyticsEvent now eid data]) hq₁ (by simp) (by simp)
  rw [hflush]
  refine congrArg (fun st => ((Except.ok ()), st)) ?_
  have h1 : eraseA (setA [(d, q₀)] d
      (((lookupA [(d, q₀)] d).getD ([] : List AnalyticsEvent)) ++
        [mkAnalyticsEvent now eid data])) d = [] := by
    rw [lookupA_cons_self]
    simp [setA, eraseA, List.filter_cons]
  have h2 : List.filter (fun k => k ≠ d) [d] = ([] : List Nat) := by
    simp
  simp only [h1, h2, hfs]
  simp

/-- Sequential composition of `logEvents` across an append of input
lists. -/
theorem logEvents_append (a b : List (Nat × String × AnalyticsEventData)) :
    ∀ s s₁, logEvents a s = (.ok (), s₁) →
    logEvents (a ++ b) s = logEvents b s₁ := by
  induction a with
  | nil =>
    intro s s₁ h
    obtain rfl : s = s₁ := congrArg Prod.snd h
    rfl
  | cons i rest ih =>
    intro s s₁ h
    obtain ⟨now, eid, data⟩ := i
    show logEvents ((now, eid, data) :: (rest ++ b)) s = _
    simp only [logEvents] at h ⊢
    cases hstep : logEvent now eid data s with
    | mk r s' =>
      rw [hstep] at h
      cases r with
      | error e =>
        exfalso
        have hcontr : (Except.error e : Except Unit Unit) = Except.ok () :=
          congrArg Prod.fst h
        exact absurd hcontr (by simp)
      | ok u => exact ih s' s₁ h

/-- C2: enqueuing events for one date-key until the queue reaches the
batch size of 10 triggers an immediate flush during the tenth `logEvent`
call — no timer fires: after nine events the timer is armed and nothing
has been written, and the tenth call itself empties the queue, cancels
the armed timer, and appends exactly the ten queued records to the
date's partition, which a subsequent load returns exactly. -/
theorem batch_threshold_flush (d : Nat) (inputs : List (Nat × String × AnalyticsEventData))
    (hlen : inputs.length = 10) (hday : ∀ i ∈ inputs, dayOf i.1 = d) :
    ∃ s₉ s', logEvents (inputs.take 9) initState = (.ok (), s₉) ∧
      d ∈ s₉.writeTimeout ∧ lookupA s₉.fs d = none ∧
      lookupA s₉.writeQueue d =
        some ((inputs.take 9).map (fun i => mkAnalyticsEvent i.1 i.2.1 i.2.2)) ∧
      logEvents inputs initState = (.ok (), s') ∧
      lookupA s'.writeQueue d = none ∧ d ∉ s'.writeTimeout ∧
      loadEventsFromFile s'.fs d =
        .ok (inputs.map (fun i => mkAnalyticsEvent i.1 i.2.1 i.2.2)) := by
  have hsplit : inputs.take 9 ++ inputs.drop 9 = inputs := List.take_append_drop 9 inputs
  have hlen9 : (inputs.take 9).length = 9 := by
    rw [List.length_take]
    omega
  have hdrop1 : (inputs.drop 9).length = 1 := by
    rw [List.length_drop, hlen]
  obtain ⟨ilast, hlast⟩ := List.length_eq_one.mp hdrop1
  have hmem_take : ∀ i ∈ inputs.take 9, dayOf i.1 = d :=
    fun i hi => hday i (List.take_subset 9 inputs hi)
  have hmem_last : dayOf ilast.1 = d := by
    refine hday ilast (List.drop_subset 9 inputs ?_)
    rw [hlast]
    simp
  obtain ⟨i₀, rest8, h9⟩ : ∃ i₀ rest8, inputs.take 9 = i₀ :: rest8 := by
    cases h : inputs.take 9 with
    | nil => rw [h] at hlen9; simp at hlen9
    | cons a b => exact ⟨a, b, rfl⟩
  obtain ⟨now₀, eid₀, data₀⟩ := i₀
  have hd₀ : dayOf now₀ = d := hmem_take (now₀, eid₀, data₀) (by rw [h9]; simp)
  have hrest8 : ∀ i ∈ rest8, dayOf i.1 = d := by
    intro i hi
    exact hmem_take i (by rw [h9]; simp [hi])
  have hlen8 : rest8.length = 8 := by
    rw [h9] at hlen9
    simpa using hlen9
  -- the first nine calls: queue grows, the timer stays armed, nothing is written
  have hnine : logEvents (inputs.take 9) initState =
      (.ok (),
        { writeQueue := [(d, (inputs.take 9).map (fun i => mkAnalyticsEvent i.1 i.2.1 i.2.2))],
          writeTimeout := [d], fs := [], failDays := [] }) := by
    have hbody : logEvents ((now₀, eid₀, data₀) :: rest8) initState =
        (.ok (),
          { writeQueue := [(d, [mkAnalyticsEvent now₀ eid₀ data₀] ++
              rest8.map (fun i => mkAnalyticsEvent i.1 i.2.1 i.2.2))],
            writeTimeout := [d], fs := [], failDays := [] }) := by
      simp only [logEvents, logEvent_first now₀ eid₀ data₀, hd₀]
      exact logEvents_below_batch d rest8 hrest8 [mkAnalyticsEvent now₀ eid₀ data₀] []
        (by rw [List.length_singleton, hlen8]; simp [batchSize])
    rw [h9, hbody]
    rw [show ([mkAnalyticsEvent now₀ eid₀ data₀] ++
        rest8.map (fun i => mkAnalyticsEvent i.1 i.2.1 i.2.2)) =
        ((now₀, eid₀, data₀) :: rest8).map (fun i => mkAnalyticsEvent i.1 i.2.1 i.2.2) from
      by simp]
  -- the tenth call flushes immediately
  obtain ⟨nowL, eidL, dataL⟩ := ilast
  have hdL : dayOf nowL = d := hmem_last
  have hq9len : ((inputs.take 9).map
      (fun i => mkAnalyticsEvent i.1 i.2.1 i.2.2)).length + 1 = batchSize := by
    rw [List.length_map, hlen9]
    rfl
  have hstep10 := logEvent_batch_step nowL eidL dataL d
    ((inputs.take 9).map (fun i => mkAnalyticsEvent i.1 i.2.1 i.2.2)) []
    hdL hq9len (by rfl)
  have hmap : (inputs.take 9).map (fun i => mkAnalyticsEvent i.1 i.2.1 i.2.2) ++
      [mkAnalyticsEvent nowL eidL dataL] =
      inputs.map (fun i => mkAnalyticsEvent i.1 i.2.1 i.2.2) := by
    conv_rhs => rw [← hsplit]
    rw [List.map_append, hlast]
    rfl
  have hall : logEvents inputs initState =
      (.ok (),
        { writeQueue := [], writeTimeout := [],
          fs := setA [] d ((inputs.map (fun i => mkAnalyticsEvent i.1 i.2.1 i.2.2)).map some),
          failDays := [] }) := by
    have hcomp := logEvents_append (inputs.take 9) (inputs.drop 9) initState _ hnine
    calc logEvents inputs initState
        = logEvents (inputs.take 9 ++ inputs.drop 9) initState := by rw [hsplit]
      _ = logEvents (inputs.drop 9)
            { writeQueue := [(d, (inputs.take 9).map (fun i => mkAnalyticsEvent i.1 i.2.1 i.2.2))],
              writeTimeout := [d], fs := [], failDays := [] } := hcomp
      _ = _ := by
            rw [hlast]
            show logEvents [(nowL, eidL, dataL)] _ = _
            simp only [logEvents, hstep10, hmap]
  refine ⟨_, _, hnine, by simp, by rfl, lookupA_cons_self _ _ _, hall, ?_, ?_, ?_⟩
  · show lookupA ([] : List (Nat × List AnalyticsEvent)) d = none
    rfl
  · show d ∉ ([] : List Nat)
    simp
  · show loadEventsFromFile (setA [] d _) d = _
    simp only [setA]
    simp only [loadEventsFromFile, lookupA_cons_self, parseLines_map_some]

theorem batch_threshold_flush_witness :
    (((List.range 10).map (fun i => (1000 + i, toString i, sampleData))).length = 10 ∧
      ∀ i ∈ (List.range 10).map (fun i => (1000 + i, toString i, sampleData)),
        dayOf i.1 = 0) ∧
    ∃ s₉ s', logEvents (((List.range 10).map
        (fun i => (1000 + i, toString i, sampleData))).take 9) initState = (.ok (), s₉) ∧
      0 ∈ s₉.writeTimeout ∧ lookupA s₉.fs 0 = none ∧
      lookupA s₉.writeQueue 0 =
        some ((((List.range 10).map (fun i => (1000 + i, toString i, sampleData))).take 9).map
          (fun i => mkAnalyticsEvent i.1 i.2.1 i.2.2)) ∧
      logEvents ((List.range 10).map (fun i => (1000 + i, toString i, sampleData)))
        initState = (.ok (), s') ∧
      lookupA s'.writeQueue 0 = none ∧ 0 ∉ s'.writeTimeout ∧
      loadEventsFromFile s'.fs 0 =
        .ok (((List.range 10).map (fun i => (1000 + i, toString i, sampleData))).map
          (fun i => mkAnalyticsEvent i.1 i.2.1 i.2.2)) :=
  ⟨⟨by decide, by decide⟩,
    batch_threshold_flush 0 ((List.range 10).map (fun i => (1000 + i, toString i, sampleData)))
      (by decide) (by decide)⟩

/-- C9: every query operation degrades gracefully on an empty filtered
event set: `getStats` returns the all-zero record with an empty
`commandUsage` map, `getChannelStats` returns the no-data sentinel
(`null`), and `getDailyStats` still returns all 24 zeroed two-digit hour
buckets `"00"`…`"23"`, not an empty map. -/
theorem empty_result_degrades :
    (∀ (now : Nat) (q : AnalyticsQuery) (s s' : AnalyticsState),
      getEventsInRange (statsStartDate now q) (statsEndDate now q) q s = (.ok [], s') →
      getStats now q s =
        (.ok { totalInteractions := 0, totalUsers := 0, totalChannels := 0
               averageResponseTime := 0, totalTokensUsed := 0, errorRate := 0
               commandUsage := []
               timeRangeStart := statsStartDate now q
               timeRangeEnd := statsEndDate now q }, s')) ∧
    (∀ (now : Nat) (cid : String) (q : AnalyticsQuery) (s s' : AnalyticsState),
      getEventsInRange (q.startDate.getD (now - 30 * 24 * 60 * 60 * 1000)) (q.endDate.getD now)
        { q with channel := some cid } s = (.ok [], s') →
      getChannelStats now cid q s = (.ok none, s')) ∧
    (∀ (d : Nat) (s s' : AnalyticsState),
      getEventsInRange (d * msPerDay) (d * msPerDay + (msPerDay - 1)) emptyQuery s =
        (.ok [], s') →
      ∃ st, getDailyStats d s = (.ok st, s') ∧
        st.hourlyDistribution = hourlyInit ∧ st.hourlyDistribution.length = 24 ∧
        ∀ h < 24, lookupA st.hourlyDistribution (pad2 h) = some 0) := by
  refine ⟨?_, ?_, ?_⟩
  · intro now q s s' h
    simp only [getStats, h]
    simp
  · intro now cid q s s' h
    simp only [getChannelStats, h]
  · intro d s s' h
    have hlen24 : hourlyInit.length = 24 := by decide
    have hbuckets : ∀ h < 24, lookupA hourlyInit (pad2 h) = some 0 := by decide
    refine ⟨{ date := d, totalInteractions := 0, uniqueUsers := 0, uniqueChannels := 0
              averageResponseTime := 0, totalTokensUsed := 0, errorCount := 0
              hourlyDistribution := hourlyInit, topCommands := [] },
      ?_, rfl, hlen24, hbuckets⟩
    simp only [getDailyStats, h]
    simp [totalResponseTimeOf, totalTokensOf, errorCountOf, uniqueCount,
      buildCommandCounts, top5Commands, sortByCountDesc]

theorem empty_result_degrades_witness :
    getEventsInRange (statsStartDate 604800000 emptyQuery) (statsEndDate 604800000 emptyQuery)
      emptyQuery initState = (.ok [], initState) ∧
    getStats 604800000 emptyQuery initState =
      (.ok { totalInteractions := 0, totalUsers := 0, totalChannels := 0
             averageResponseTime := 0, totalTokensUsed := 0, errorRate := 0
             commandUsage := []
             timeRangeStart := statsStartDate 604800000 emptyQuery
             timeRangeEnd := statsEndDate 604800000 emptyQuery }, initState) ∧
    getChannelStats 0 "ch" emptyQuery initState = (.ok none, initState) ∧
    ∃ st, getDailyStats 3 initState = (.ok st, initState) ∧
      st.hourlyDistribution = hourlyInit ∧ st.hourlyDistribution.length = 24 ∧
      ∀ h < 24, lookupA st.hourlyDistribution (pad2 h) = some 0 := by
  refine ⟨by decide, ?_, ?_, ?_⟩
  · exact empty_result_degrades.1 604800000 emptyQuery initState initState (by decide)
  · exact empty_result_degrades.2.1 0 "ch" emptyQuery initState initState (by decide)
  · exact empty_result_degrades.2.2 3 initState initState (by decide)

/-- C7 (code bug): `logEvent` is not fire-and-forget on the batch-size
path.  With nine events queued for a failing partition, the tenth
`logEvent` awaits `flushEvents` with no catch, so the append failure
rejects the promise `logEvent` returns to its caller (first conjunct) —
the repository's own documentation says analytics errors "are logged but
don't propagate".  The failed batch is at least not lost: it stays
queued (second conjunct).  Only the timer-path flush wraps the failure in
a `.catch` that confines it to the error log. -/
theorem logEvent_batch_failure_propagates :
    (logEvent 1000 "z" sampleData
      { writeQueue := [(0, (List.range 9).map
          (fun i => mkAnalyticsEvent (100 + i) (toString i) sampleData))],
        writeTimeout := [0], fs := [], failDays := [0] }).1 = .error () ∧
    (logEvent 1000 "z" sampleData
      { writeQueue := [(0, (List.range 9).map
          (fun i => mkAnalyticsEvent (100 + i) (toString i) sampleData))],
        writeTimeout := [0], fs := [], failDays := [0] }).2.writeQueue =
      [(0, (List.range 9).map (fun i => mkAnalyticsEvent (100 + i) (toString i) sampleData) ++
        [mkAnalyticsEvent 1000 "z" sampleData])] := by
  constructor
  · decide
  · decide

/-- The schedule exhibiting the lost update: a timer flush of event `a`
is in flight when event `b` is enqueued for the same date-key; when the
flush's `fs.appendFile` resolves, `flushEvents` deletes the whole queue
entry, dropping `b`. -/
def lostUpdateTrace : List AsyncAction :=
  [.enqueue 1000 "a" sampleData, .timerFire 0, .enqueue 2000 "b" sampleData, .ioComplete]

/-- The schedule exhibiting duplication: the tenth enqueue starts a batch
flush of events 0–9; an eleventh enqueue during that flush sees the queue
at length 11 and starts a second flush of events 0–10, re-appending the
first ten. -/
def duplicateTrace : List AsyncAction :=
  ((List.range 10).map (fun i => AsyncAction.enqueue (1000 + i) (toString i) sampleData)) ++
    [.enqueue 1010 "k" sampleData, .ioComplete, .ioComplete]

/-- C1 (code bug): the at-most-one-flush-in-flight / exactly-once
invariant fails.  While a flush for date-key 0 is in flight, a record
enqueued for that key joins the still-present queue entry (first two
conjuncts); the flush's completion deletes the whole entry, so the record
is never persisted and no queue or timer state remains to recover it
(loss, next four conjuncts).  Moreover a batch trigger during an
in-flight flush is not deferred: it snapshots the queue — old records
included — and appends them a second time (duplication, last conjunct). -/
theorem flush_in_flight_loses_and_duplicates :
    (runAsync [.enqueue 1000 "a" sampleData, .timerFire 0, .enqueue 2000 "b" sampleData]
        initAsyncState).writeQueue =
      [(0, [mkAnalyticsEvent 1000 "a" sampleData, mkAnalyticsEvent 2000 "b" sampleData])] ∧
    (runAsync [.enqueue 1000 "a" sampleData, .timerFire 0, .enqueue 2000 "b" sampleData]
        initAsyncState).pending = [(0, [mkAnalyticsEvent 1000 "a" sampleData])] ∧
    (runAsync lostUpdateTrace initAsyncState).writeQueue = [] ∧
    (runAsync lostUpdateTrace initAsyncState).pending = [] ∧
    (runAsync lostUpdateTrace initAsyncState).writeTimeout = [] ∧
    loadEventsFromFile (runAsync lostUpdateTrace initAsyncState).fs 0 =
      .ok [mkAnalyticsEvent 1000 "a" sampleData] ∧
    ((loadEventsFromFile (runAsync duplicateTrace initAsyncState).fs 0).toOption.getD []).count
      (mkAnalyticsEvent 1000 "0" sampleData) = 2 := by
  refine ⟨by decide, by decide, by decide, by decide, by decide, by decide, by decide⟩

/-- The closed form `rangeDays` satisfies exactly the recurrence of the
source loop `while (currentDate <= endDate) { ...; currentDate += 1 day }`
(which advances by 24 h from `startDate`, keeping its time of day). -/
theorem rangeDays_loop (startDate endDate : Nat) :
    rangeDays startDate endDate =
      if startDate ≤ endDate then
        dayOf startDate :: rangeDays (startDate + msPerDay) endDate
      else [] := by
  have key : ∀ (D : Nat), 0 < D → ∀ s e : Nat,
      (if s ≤ e then (List.range ((e - s) / D + 1)).map (fun k => (s + D * k) / D)
        else ([] : List Nat)) =
      (if s ≤ e then s / D ::
          (if s + D ≤ e then (List.range ((e - (s + D)) / D + 1)).map
            (fun k => (s + D + D * k) / D) else [])
        else []) := by
    intro D hD s e
    by_cases hse : s ≤ e
    · rw [if_pos hse, if_pos hse]
      by_cases hnext : s + D ≤ e
      · rw [if_pos hnext]
        have hstep : (e - s) / D = (e - (s + D)) / D + 1 := by
          rw [Nat.div_eq_sub_div hD (by omega), Nat.sub_sub]
        rw [hstep, List.range_succ_eq_map, List.map_cons, List.map_map]
        have htail : List.map ((fun k => (s + D * k) / D) ∘ Nat.succ)
            (List.range ((e - (s + D)) / D + 1)) =
            List.map (fun k => (s + D + D * k) / D)
              (List.range ((e - (s + D)) / D + 1)) := by
          refine List.map_congr_left ?_
          intro k _
          show (s + D * (k + 1)) / D = (s + D + D * k) / D
          congr 1
          ring
        rw [htail]
        have hhead : (s + D * 0) / D = s / D := by
          rw [Nat.mul_zero, Nat.add_zero]
        rw [hhead]
      · rw [if_neg hnext]
        have hzero : (e - s) / D = 0 := Nat.div_eq_of_lt (by omega)
        rw [hzero]
        have hhead : (s + D * 0) / D = s / D := by
          rw [Nat.mul_zero, Nat.add_zero]
        rw [show List.range 1 = [0] from by simp [List.range_succ]]
        simp [hhead]
    · rw [if_neg hse, if_neg hse]
  exact key msPerDay (by norm_num [msPerDay]) startDate endDate

/-- The non-range part of the `getEventsInRange` filter: each supplied
(truthy) filter must match exactly, `hasError` against
`errorStatus?.hasError || false`. -/
def matchesFilters (q : AnalyticsQuery) (e : AnalyticsEvent) : Bool :=
  (!(jsTruthy q.channel) || (some e.channel = q.channel : Bool)) &&
  ((!(jsTruthy q.user) || (some e.user = q.user : Bool)) &&
  ((!(jsTruthy q.command) || (e.command = q.command : Bool)) &&
  (match q.hasError with
   | none => true
   | some b => ((e.errorStatus.map (·.hasError)).getD false) = b)))

/-- The filter body accepts exactly the records whose instant lies in
`[startDate, endDate]` — the boundary instant included, anything later
excluded — and which pass all supplied filters. -/
theorem matchesQuery_eq (startDate endDate : Nat) (q : AnalyticsQuery) (e : AnalyticsEvent) :
    matchesQuery startDate endDate q e =
      (decide (startDate ≤ e.timestamp) && (decide (e.timestamp ≤ endDate) &&
        matchesFilters q e)) := by
  unfold matchesQuery matchesFilters
  by_cases h1 : e.timestamp < startDate
  · have hb1 : decide (startDate ≤ e.timestamp) = false := by
      simp only [decide_eq_false_iff_not]
      omega
    simp [h1, hb1]
  · by_cases h2 : endDate < e.timestamp
    · have hb2 : decide (e.timestamp ≤ endDate) = false := by
        simp only [decide_eq_false_iff_not]
        omega
      simp [h1, h2, hb2]
    · have hb1 : decide (startDate ≤ e.timestamp) = true := by
        simp only [decide_eq_true_eq]
        omega
      have hb2 : decide (e.timestamp ≤ endDate) = true := by
        simp only [decide_eq_true_eq]
        omega
      simp only [if_neg h1, if_neg h2, hb1, hb2, Bool.true_and]
      cases hc : jsTruthy q.channel <;>
        cases hcm : (some e.channel = q.channel : Bool) <;>
        cases hu : jsTruthy q.user <;>
        cases hum : (some e.user = q.user : Bool) <;>
        cases hco : jsTruthy q.command <;>
        cases hcom : (e.command = q.command : Bool) <;>
        simp [hc, hcm, hu, hum, hco, hcom]

/-- On a fully-parseable store `collectRange` succeeds and returns, day by
day in loop order, the persisted records passing the filter. -/
theorem collectRange_ok (sd ed : Nat) (q : AnalyticsQuery) (s : AnalyticsState)
    (hpar : ∀ d l, lookupA s.fs d = some l → ∀ x ∈ l, x.isSome = true) :
    ∀ days : List Nat, collectRange days sd ed q s.fs =
      .ok (days.flatMap (fun d => (persisted s d).filter (matchesQuery sd ed q))) := by
  intro days
  induction days with
  | nil => rfl
  | cons k rest ih =>
    show collectRange (k :: rest) sd ed q s.fs = _
    simp only [collectRange, loadEventsFromFile_of_parseable s k hpar, ih, List.flatMap_cons]

/-- An event half an hour past midnight on day 2 of the epoch. -/
def eventPastMidnight : AnalyticsEvent :=
  mkAnalyticsEvent (2 * msPerDay + 1800000) "x" sampleData

/-- A store holding only that event, in day 2's partition, with nothing
buffered. -/
def stateWithLatePartition : AnalyticsState :=
  { writeQueue := [], writeTimeout := [], fs := [(2, [some eventPastMidnight])],
    failDays := [] }

/-- C3 (counterexample): with `start` at 23:00 on day 0 and `end` at 01:00
on day 2, the event at 00:30 on day 2 lies inside `[start, end]`, passes
the (empty) filters, and sits in the partition of `end`'s calendar date —
yet `getEventsInRange` returns the empty list, because the loop
`while (currentDate <= endDate)` advances in 24-hour steps from `start`
(23:00 each day) and stops before ever loading day 2's partition.  This
refutes "loads the partition of each calendar date from start to end
inclusive". -/
theorem range_query_skips_end_partition :
    23 * msPerHour ≤ eventPastMidnight.timestamp ∧
    eventPastMidnight.timestamp ≤ 2 * msPerDay + msPerHour ∧
    matchesQuery (23 * msPerHour) (2 * msPerDay + msPerHour) emptyQuery
      eventPastMidnight = true ∧
    dayOf eventPastMidnight.timestamp = dayOf (2 * msPerDay + msPerHour) ∧
    loadEventsFromFile stateWithLatePartition.fs (dayOf (2 * msPerDay + msPerHour)) =
      .ok [eventPastMidnight] ∧
    dayOf (2 * msPerDay + msPerHour) ∉ rangeDays (23 * msPerHour) (2 * msPerDay + msPerHour) ∧
    (getEventsInRange (23 * msPerHour) (2 * msPerDay + msPerHour) emptyQuery
      stateWithLatePartition).1 = .ok [] := by
  refine ⟨by decide, by decide, by decide, by decide, by decide, by decide, by decide⟩

/-- C3 (amended): `getEventsInRange` first flushes every buffered
date-key (so the loaded partitions reflect all prior enqueues), then
loads the partitions of the days `dayOf start + k` for
`0 ≤ k ≤ (end − start) / 24h` — i.e. one partition per 24-hour step of
the loop, which skips `end`'s calendar date when `end`'s time of day is
strictly earlier than `start`'s — keeps exactly the loaded records whose
timestamp lies in `[start, end]` (the boundary instant included, anything
later excluded) and which satisfy all supplied filters, and returns them
sorted ascending by timestamp. -/
theorem getEventsInRange_characterization (startDate endDate : Nat) (q : AnalyticsQuery)
    (s : AnalyticsState) (hInv : Inv s) (hse : startDate ≤ endDate) :
    ∃ s' : AnalyticsState,
      getEventsInRange startDate endDate q s =
        (.ok (sortByTimestamp ((rangeDays startDate endDate).flatMap
          (fun d => (persisted s' d).filter (matchesQuery startDate endDate q)))), s') ∧
      s'.writeQueue = [] ∧
      (∀ d, persisted s' d = persisted s d ++ qd s d) ∧
      rangeDays startDate endDate =
        (List.range ((endDate - startDate) / msPerDay + 1)).map
          (fun k => dayOf startDate + k) ∧
      List.Sorted tsLe (sortByTimestamp ((rangeDays startDate endDate).flatMap
        (fun d => (persisted s' d).filter (matchesQuery startDate endDate q)))) ∧
      (sortByTimestamp ((rangeDays startDate endDate).flatMap
        (fun d => (persisted s' d).filter (matchesQuery startDate endDate q)))).Perm
        ((rangeDays startDate endDate).flatMap
          (fun d => (persisted s' d).filter (matchesQuery startDate endDate q))) ∧
      ∀ e, matchesQuery startDate endDate q e =
        (decide (startDate ≤ e.timestamp) && (decide (e.timestamp ≤ endDate) &&
          matchesFilters q e)) := by
  obtain ⟨s', hbar, hq', hsub, hInv', hpers⟩ := flushAllKeys_spec s.writeQueue s rfl hInv
  refine ⟨s', ?_, hq', hpers, ?_, ?_, ?_, fun e => matchesQuery_eq startDate endDate q e⟩
  · simp only [getEventsInRange, hbar,
      collectRange_ok startDate endDate q s' hInv'.parseable]
  · show (if startDate ≤ endDate then
        (List.range ((endDate - startDate) / msPerDay + 1)).map
          (fun k => (startDate + msPerDay * k) / msPerDay) else []) = _
    rw [if_pos hse]
    refine List.map_congr_left ?_
    intro k _
    exact Nat.add_mul_div_left startDate k (by norm_num [msPerDay])
  · exact List.sorted_insertionSort tsLe _
  · exact List.perm_insertionSort tsLe _

theorem inv_stateWithLatePartition : Inv stateWithLatePartition := by
  constructor
  · simp [stateWithLatePartition]
  · intro d q h
    simp [stateWithLatePartition, lookupA] at h
  · intro d l hl x hx
    by_cases hd : 2 = d
    · simp only [stateWithLatePartition, lookupA, hd, if_pos rfl] at hl
      obtain rfl := Option.some.inj hl
      simp only [List.mem_singleton] at hx
      subst hx
      rfl
    · simp [stateWithLatePartition, lookupA, hd] at hl
  · rfl

theorem getEventsInRange_characterization_witness :
    Inv stateWithLatePartition ∧ 23 * msPerHour ≤ 2 * msPerDay + msPerHour ∧
    ∃ s' : AnalyticsState,
      getEventsInRange (23 * msPerHour) (2 * msPerDay + msPerHour) emptyQuery
          stateWithLatePartition =
        (.ok (sortByTimestamp ((rangeDays (23 * msPerHour) (2 * msPerDay + msPerHour)).flatMap
          (fun d => (persisted s' d).filter
            (matchesQuery (23 * msPerHour) (2 * msPerDay + msPerHour) emptyQuery)))), s') ∧
      s'.writeQueue = [] ∧
      (∀ d, persisted s' d = persisted stateWithLatePartition d ++ qd stateWithLatePartition d) ∧
      rangeDays (23 * msPerHour) (2 * msPerDay + msPerHour) =
        (List.range (((2 * msPerDay + msPerHour) - 23 * msPerHour) / msPerDay + 1)).map
          (fun k => dayOf (23 * msPerHour) + k) ∧
      List.Sorted tsLe (sortByTimestamp
        ((rangeDays (23 * msPerHour) (2 * msPerDay + msPerHour)).flatMap
          (fun d => (persisted s' d).filter
            (matchesQuery (23 * msPerHour) (2 * msPerDay + msPerHour) emptyQuery)))) ∧
      (sortByTimestamp ((rangeDays (23 * msPerHour) (2 * msPerDay + msPerHour)).flatMap
        (fun d => (persisted s' d).filter
          (matchesQuery (23 * msPerHour) (2 * msPerDay + msPerHour) emptyQuery)))).Perm
        ((rangeDays (23 * msPerHour) (2 * msPerDay + msPerHour)).flatMap
          (fun d => (persisted s' d).filter
            (matchesQuery (23 * msPerHour) (2 * msPerDay + msPerHour) emptyQuery))) ∧
      ∀ e, matchesQuery (23 * msPerHour) (2 * msPerDay + msPerHour) emptyQuery e =
        (decide (23 * msPerHour ≤ e.timestamp) &&
          (decide (e.timestamp ≤ 2 * msPerDay + msPerHour) && matchesFilters emptyQuery e)) :=
  ⟨inv_stateWithLatePartition, by decide,
    getEventsInRange_characterization (23 * msPerHour) (2 * msPerDay + msPerHour) emptyQuery
      stateWithLatePartition inv_stateWithLatePartition (by decide)⟩

/-!  Aggregation lemmas (`getStats` and the top-5 command rankings). -/

theorem foldl_add_map (f : AnalyticsEvent → Rat) (l : List AnalyticsEvent) :
    ∀ a : Rat, l.foldl (fun sum e => sum + f e) a = a + (l.map f).sum := by
  induction l with
  | nil => intro a; simp
  | cons e rest ih =>
    intro a
    show rest.foldl (fun sum e => sum + f e) (a + f e) = _
    rw [ih (a + f e)]
    simp [add_assoc]

theorem totalResponseTimeOf_eq (events : List AnalyticsEvent) :
    totalResponseTimeOf events = (events.map (·.responseTime)).sum := by
  unfold totalResponseTimeOf
  rw [foldl_add_map]
  exact zero_add _

theorem totalTokensOf_eq (events : List AnalyticsEvent) :
    totalTokensOf events = (events.map (fun e => (e.tokensUsed.map (·.total)).getD 0)).sum := by
  unfold totalTokensOf
  rw [foldl_add_map]
  exact zero_add _

theorem errorCountOf_eq (events : List AnalyticsEvent) :
    errorCountOf events =
      events.countP (fun e => (e.errorStatus.map (·.hasError)).getD false) := by
  unfold errorCountOf
  rw [List.countP_eq_length_filter]

theorem uniqueCount_eq {α : Type} [DecidableEq α] (l : List α) :
    uniqueCount l = l.toFinset.card :=
  (List.card_toFinset l).symm

theorem lookupA_bumpA (m : List (String × Nat)) (c c' : String) :
    (lookupA (bumpA m c') c).getD 0 =
      (lookupA m c).getD 0 + (if c = c' then 1 else 0) := by
  by_cases h : c = c'
  · subst h
    simp [bumpA, lookupA_setA_self]
  · simp [bumpA, lookupA_setA_ne m c' c _ h, h]

theorem buildCommandCounts_lookup (events : List AnalyticsEvent) (c : String) :
    (lookupA (buildCommandCounts events) c).getD 0 =
      events.countP (fun e => bucketOf e = some c) := by
  suffices h : ∀ m : List (String × Nat),
      (lookupA (events.foldl
        (fun m e => match bucketOf e with | some c => bumpA m c | none => m) m) c).getD 0 =
      (lookupA m c).getD 0 + events.countP (fun e => bucketOf e = some c) by
    simpa [buildCommandCounts, lookupA] using h []
  induction events with
  | nil => intro m; simp [lookupA]
  | cons e rest ih =>
    intro m
    show (lookupA (rest.foldl _
        (match bucketOf e with | some c => bumpA m c | none => m)) c).getD 0 = _
    rw [ih]
    cases hb : bucketOf e with
    | none =>
      simp [List.countP_cons, hb]
    | some c' =>
      rw [lookupA_bumpA m c c']
      rw [List.countP_cons]
      have heq : (decide (bucketOf e = some c)) = (if c = c' then true else false) := by
        by_cases hc : c = c'
        · simp [hb, hc]
        · simp [hb, hc]
          exact fun hh => hc hh.symm
      rw [heq]
      by_cases hc : c = c'
      · simp [hc]
        omega
      · simp [hc]

/-- The `AnalyticsStats` record `getStats` builds on a non-empty filtered
event set. -/
theorem getStats_nonempty (now : Nat) (q : AnalyticsQuery) (s s' : AnalyticsState)
    (events : List AnalyticsEvent)
    (hrange : getEventsInRange (statsStartDate now q) (statsEndDate now q) q s =
      (.ok events, s'))
    (hne : events ≠ []) :
    getStats now q s =
      (.ok { totalInteractions := events.length
             totalUsers := uniqueCount (events.map (·.user))
             totalChannels := uniqueCount (events.map (·.channel))
             averageResponseTime := totalResponseTimeOf events / events.length
             totalTokensUsed := totalTokensOf events
             errorRate := (errorCountOf events : Rat) / events.length
             commandUsage := buildCommandCounts events
             timeRangeStart := statsStartDate now q
             timeRangeEnd := statsEndDate now q }, s') := by
  have hlen : ¬ events.length = 0 := by simpa using hne
  simp only [getStats, hrange, hlen, if_false]

/-- C6 (amended): on a non-empty filtered event set `getStats` returns
the event count; the distinct `user` and `channel` counts; the mean
`responseTime`; the sum of `tokensUsed.total` with absent treated as 0;
`errorRate` = erroring count / total count with absent `errorStatus`
counting as no error; and a `commandUsage` map in which each event
contributes to its `command` bucket when `command` is present **and
non-empty**, else to the synthetic `query` bucket when `query` is present
and non-empty, else to neither (the code tests JavaScript truthiness, so
a present-but-empty `command` does not get its own bucket — see the
counterexample). -/
theorem getStats_aggregates (now : Nat) (q : AnalyticsQuery) (s s' : AnalyticsState)
    (events : List AnalyticsEvent)
    (hrange : getEventsInRange (statsStartDate now q) (statsEndDate now q) q s =
      (.ok events, s'))
    (hne : events ≠ []) :
    ∃ st, getStats now q s = (.ok st, s') ∧
      st.totalInteractions = events.length ∧
      st.totalUsers = (events.map (·.user)).toFinset.card ∧
      st.totalChannels = (events.map (·.channel)).toFinset.card ∧
      st.averageResponseTime = (events.map (·.responseTime)).sum / events.length ∧
      st.totalTokensUsed =
        (events.map (fun e => (e.tokensUsed.map (·.total)).getD 0)).sum ∧
      st.errorRate =
        ((events.countP (fun e => (e.errorStatus.map (·.hasError)).getD false) : Nat) : Rat) /
          events.length ∧
      ∀ c, (lookupA st.commandUsage c).getD 0 =
        events.countP (fun e => bucketOf e = some c) := by
  refine ⟨_, getStats_nonempty now q s s' events hrange hne, rfl, ?_, ?_, ?_, ?_, ?_, ?_⟩
  · exact uniqueCount_eq _
  · exact uniqueCount_eq _
  · rw [totalResponseTimeOf_eq]
  · exact totalTokensOf_eq events
  · rw [errorCountOf_eq]
  · exact fun c => buildCommandCounts_lookup events c

/-- An event whose `command` is present but empty, with a non-empty
`query`. -/
def emptyCommandEvent : AnalyticsEvent :=
  mkAnalyticsEvent 1000 "y" { sampleData with command := some "", query := some "hello" }

/-- A store holding only that event in day 0's partition. -/
def stateWithEmptyCommand : AnalyticsState :=
  { writeQueue := [], writeTimeout := [], fs := [(0, [some emptyCommandEvent])],
    failDays := [] }

/-- C6 (counterexample): the claim says an event contributes to its
`command` bucket whenever `command` is present.  Here `command` is the
present (but empty) string and `query` is `"hello"`, yet `getStats` files
the event under the synthetic `"query"` bucket and creates no `""`
bucket, because `if (e.command)` tests JavaScript truthiness and the
empty string is falsy. -/
theorem getStats_empty_command_bucket_mismatch :
    emptyCommandEvent.command = some "" ∧
    emptyCommandEvent.query = some "hello" ∧
    ((getStats 0 { emptyQuery with startDate := some 0, endDate := some (msPerDay - 1) }
      stateWithEmptyCommand).1.toOption.map (·.commandUsage)) = some [("query", 1)] ∧
    lookupA [(("query" : String), 1)] "" = none := by
  refine ⟨rfl, rfl, by decide, by decide⟩

/-- Four events on day 0 with known aggregates: response times 100, 200,
300, 400; token totals 10, 0, 20, 0; exactly one erroring. -/
def statEvents : List AnalyticsEvent :=
  [mkAnalyticsEvent 1000 "e1"
    { sampleData with
      responseTime := 100
      tokensUsed := some { input := 6, output := 4, total := 10 } },
   mkAnalyticsEvent 2000 "e2" { sampleData with responseTime := 200, user := "u2" },
   mkAnalyticsEvent 3000 "e3"
    { sampleData with
      responseTime := 300
      tokensUsed := some { input := 15, output := 5, total := 20 }
      errorStatus := some { hasError := true, errorType := some "api", errorMessage := none } },
   mkAnalyticsEvent 4000 "e4"
    { sampleData with
      responseTime := 400
      command := some "summarize" }]

/-- A store holding exactly those four events in day 0's partition. -/
def stateWithFourEvents : AnalyticsState :=
  { writeQueue := [], writeTimeout := [], fs := [(0, statEvents.map some)],
    failDays := [] }

theorem getStats_aggregates_witness :
    getEventsInRange
        (statsStartDate 0 { emptyQuery with startDate := some 0, endDate := some (msPerDay - 1) })
        (statsEndDate 0 { emptyQuery with startDate := some 0, endDate := some (msPerDay - 1) })
        { emptyQuery with startDate := some 0, endDate := some (msPerDay - 1) }
        stateWithFourEvents = (.ok statEvents, stateWithFourEvents) ∧
    statEvents ≠ [] ∧
    ∃ st, getStats 0 { emptyQuery with startDate := some 0, endDate := some (msPerDay - 1) }
        stateWithFourEvents = (.ok st, stateWithFourEvents) ∧
      st.totalInteractions = statEvents.length ∧
      st.totalUsers = (statEvents.map (·.user)).toFinset.card ∧
      st.totalChannels = (statEvents.map (·.channel)).toFinset.card ∧
      st.averageResponseTime = (statEvents.map (·.responseTime)).sum / statEvents.length ∧
      st.totalTokensUsed =
        (statEvents.map (fun e => (e.tokensUsed.map (·.total)).getD 0)).sum ∧
      st.errorRate =
        ((statEvents.countP (fun e => (e.errorStatus.map (·.hasError)).getD false) : Nat) : Rat) /
          statEvents.length ∧
      ∀ c, (lookupA st.commandUsage c).getD 0 =
        statEvents.countP (fun e => bucketOf e = some c) :=
  ⟨by decide, by decide,
    getStats_aggregates 0 { emptyQuery with startDate := some 0, endDate := some (msPerDay - 1) }
      stateWithFourEvents stateWithFourEvents statEvents (by decide) (by decide)⟩

/-- The first-seen order of a list of bucket labels: each label at its
first occurrence. -/
def firstSeen (l : List String) : List String :=
  l.foldl (fun acc c => if c ∈ acc then acc else acc ++ [c]) []

/-- Inserting a pair with the comparator `b - a` never reorders pairs of
equal count: every pair skipped over has a strictly larger count. -/
theorem filter_count_orderedInsert (n : Nat) (a : String × Nat) (l : List (String × Nat)) :
    (List.orderedInsert countGe a l).filter (fun p => p.2 = n) =
      ((a :: l).filter (fun p => p.2 = n)) := by
  induction l with
  | nil => rfl
  | cons b t ih =>
    show (if countGe a b then a :: b :: t else b :: List.orderedInsert countGe a t).filter _ = _
    by_cases hab : countGe a b
    · rw [if_pos hab]
    · rw [if_neg hab]
      have hlt : a.2 < b.2 := by
        unfold countGe at hab
        omega
      by_cases hpa : a.2 = n <;> by_cases hpb : b.2 = n
      · omega
      · simp only [List.filter_cons, hpa, hpb, decide_True, decide_False, if_true, if_false,
          decide_eq_true_eq]
        simp only [List.filter_cons, hpa, decide_True, if_true] at ih
        simp [hpb, ih]
      · simp only [List.filter_cons] at ih ⊢
        simp only [hpa, hpb] at ih ⊢
        simp [ih]
      · simp only [List.filter_cons] at ih ⊢
        simp only [hpa, hpb] at ih ⊢
        simp [ih]

/-- Stability of the ranking sort: for every count value, the sorted list
carries the pairs with that count in exactly their original (first-seen)
order. -/
theorem filter_sortByCountDesc (n : Nat) (m : List (String × Nat)) :
    (sortByCountDesc m).filter (fun p => p.2 = n) = m.filter (fun p => p.2 = n) := by
  induction m with
  | nil => rfl
  | cons a t ih =>
    show (List.orderedInsert countGe a (List.insertionSort countGe t)).filter _ = _
    rw [filter_count_orderedInsert]
    simp only [List.filter_cons]
    rw [show (List.insertionSort countGe t).filter (fun p => decide (p.2 = n)) =
      t.filter (fun p => decide (p.2 = n)) from ih]

/-- The keys of the accumulated command counts are the bucket labels in
first-seen order during the scan of the events. -/
theorem buildCommandCounts_keys (events : List AnalyticsEvent) :
    (buildCommandCounts events).map Prod.fst = firstSeen (events.filterMap bucketOf) := by
  suffices h : ∀ m : List (String × Nat),
      ((events.foldl
        (fun m e => match bucketOf e with | some c => bumpA m c | none => m) m).map Prod.fst) =
      (events.filterMap bucketOf).foldl
        (fun acc c => if c ∈ acc then acc else acc ++ [c]) (m.map Prod.fst) by
    simpa [buildCommandCounts, firstSeen] using h []
  induction events with
  | nil => intro m; rfl
  | cons e rest ih =>
    intro m
    cases hb : bucketOf e with
    | none =>
      show ((rest.foldl _ (match bucketOf e with | some c => bumpA m c | none => m)).map Prod.fst) = _
      rw [hb]
      rw [show (e :: rest).filterMap bucketOf = rest.filterMap bucketOf from by
        simp [List.filterMap_cons, hb]]
      exact ih m
    | some c =>
      show ((rest.foldl _ (match bucketOf e with | some c => bumpA m c | none => m)).map Prod.fst) = _
      rw [hb]
      rw [show (e :: rest).filterMap bucketOf = c :: rest.filterMap bucketOf from by
        simp [List.filterMap_cons, hb]]
      show _ = (rest.filterMap bucketOf).foldl _
        (if c ∈ m.map Prod.fst then m.map Prod.fst else m.map Prod.fst ++ [c])
      rw [ih (bumpA m c)]
      congr 1
      exact keys_setA m c _

/-- Four events on day 0 whose commands are `b`, `b`, `7`, `7`: two
buckets of equal count, one of whose names is an array-index string. -/
def tieEvents : List AnalyticsEvent :=
  [mkAnalyticsEvent 1000 "t1" { sampleData with command := some "b" },
   mkAnalyticsEvent 2000 "t2" { sampleData with command := some "b" },
   mkAnalyticsEvent 3000 "t3" { sampleData with command := some "7" },
   mkAnalyticsEvent 4000 "t4" { sampleData with command := some "7" }]

/-- A store holding exactly those four events in day 0's partition. -/
def stateWithTieEvents : AnalyticsState :=
  { writeQueue := [], writeTimeout := [], fs := [(0, tieEvents.map some)],
    failDays := [] }

/-- C8 (counterexample): the claim says equal-count commands appear in
first-seen order.  With commands `b`, `b`, `7`, `7` the counts object
holds `b` first (first seen), but `Object.entries` enumerates the
array-index key `"7"` ahead of `"b"`, and the stable sort keeps that
order for the tied counts — so both `getDailyStats.topCommands` and
`getChannelStats.mostUsedCommands` list `7` before the first-seen `b`. -/
theorem top5Commands_numeric_tie_break_violation :
    buildCommandCounts tieEvents = [("b", 2), ("7", 2)] ∧
    firstSeen (tieEvents.filterMap bucketOf) = ["b", "7"] ∧
    top5Commands (buildCommandCounts tieEvents) = [("7", 2), ("b", 2)] ∧
    ((getDailyStats 0 stateWithTieEvents).1.toOption.map (·.topCommands)) =
      some [("7", 2), ("b", 2)] ∧
    ((getChannelStats 0 "c1"
        { emptyQuery with startDate := some 0, endDate := some (msPerDay - 1) }
        stateWithTieEvents).1.toOption.map (Option.map (·.mostUsedCommands))) =
      some (some [("7", 2), ("b", 2)]) := by
  refine ⟨by decide, by decide, by decide, by decide, by decide⟩

/-- C8 (amended): the ranking shared by `getChannelStats.mostUsedCommands`
and `getDailyStats.topCommands` (both are `top5Commands
(buildCommandCounts events)` here, mirroring the identical inline code of
the two getters) sorts the enumerated command-count pairs descending by
count and truncates to at most five entries; the stable sort keeps
equal-count pairs in `Object.entries` enumeration order, and that
enumeration order is the first-seen order of the scan exactly when no
command name is an array-index string (array-index names such as `"7"`
enumerate first, in ascending numeric order — see the counterexample). -/
theorem top5Commands_sorted_stable_truncated (events : List AnalyticsEvent) :
    top5Commands (buildCommandCounts events) =
      (sortByCountDesc (objectEntries (buildCommandCounts events))).take 5 ∧
    (top5Commands (buildCommandCounts events)).length ≤ 5 ∧
    List.Pairwise countGe (sortByCountDesc (objectEntries (buildCommandCounts events))) ∧
    (∀ n, (sortByCountDesc (objectEntries (buildCommandCounts events))).filter
        (fun p => p.2 = n) =
      (objectEntries (buildCommandCounts events)).filter (fun p => p.2 = n)) ∧
    (buildCommandCounts events).map Prod.fst = firstSeen (events.filterMap bucketOf) ∧
    ((∀ p ∈ buildCommandCounts events, arrayIndexOf p.1 = none) →
      objectEntries (buildCommandCounts events) = buildCommandCounts events) := by
  refine ⟨rfl, ?_, ?_, fun n => filter_sortByCountDesc n _, buildCommandCounts_keys events, ?_⟩
  · exact List.length_take_le 5 _
  · exact List.sorted_insertionSort countGe _
  · intro h
    unfold objectEntries
    have hidx : (buildCommandCounts events).filter
        (fun p => (arrayIndexOf p.1).isSome) = [] := by
      rw [List.filter_eq_nil_iff]
      intro p hp
      simp [h p hp]
    have hrest : (buildCommandCounts events).filter
        (fun p => (arrayIndexOf p.1).isNone) = buildCommandCounts events := by
      rw [List.filter_eq_self]
      intro p hp
      simp [h p hp]
    rw [hidx, hrest]
    rfl

/-- Five events whose commands `beta`, `alpha`, `alpha`, `beta`, `gamma`
are all non-index names, with the counts tied between `beta` (seen
first) and `alpha`. -/
def namedTieEvents : List AnalyticsEvent :=
  [mkAnalyticsEvent 1000 "n1" { sampleData with command := some "beta" },
   mkAnalyticsEvent 2000 "n2" { sampleData with command := some "alpha" },
   mkAnalyticsEvent 3000 "n3" { sampleData with command := some "alpha" },
   mkAnalyticsEvent 4000 "n4" { sampleData with command := some "beta" },
   mkAnalyticsEvent 5000 "n5" { sampleData with command := some "gamma" }]

theorem top5Commands_sorted_stable_truncated_witness :
    (∀ p ∈ buildCommandCounts namedTieEvents, arrayIndexOf p.1 = none) ∧
    (top5Commands (buildCommandCounts namedTieEvents) =
        (sortByCountDesc (objectEntries (buildCommandCounts namedTieEvents))).take 5 ∧
      (top5Commands (buildCommandCounts namedTieEvents)).length ≤ 5 ∧
      List.Pairwise countGe
        (sortByCountDesc (objectEntries (buildCommandCounts namedTieEvents))) ∧
      (∀ n, (sortByCountDesc (objectEntries (buildCommandCounts namedTieEvents))).filter
          (fun p => p.2 = n) =
        (objectEntries (buildCommandCounts namedTieEvents)).filter (fun p => p.2 = n)) ∧
      (buildCommandCounts namedTieEvents).map Prod.fst =
        firstSeen (namedTieEvents.filterMap bucketOf) ∧
      ((∀ p ∈ buildCommandCounts namedTieEvents, arrayIndexOf p.1 = none) →
        objectEntries (buildCommandCounts namedTieEvents) =
          buildCommandCounts namedTieEvents)) ∧
    top5Commands (buildCommandCounts namedTieEvents) =
      [("beta", 2), ("alpha", 2), ("gamma", 1)] :=
  ⟨by decide, top5Commands_sorted_stable_truncated namedTieEvents, by decide⟩
